import Mathlib

/-!
Archive entries of a BSA container (`src/bsafile.cpp`).

A shallow embedding of `BSA::File`: its three constructors, `getFilePath`,
`writeHeader`, `writeData` and `readFileName`, over an explicit model of
`std::fstream`, followed by theorems about them.

Conventions.
* Machine integers are natural numbers; a conversion that truncates in the
  source (`static_cast<BSAULong>`) is an explicit `% 2 ^ 32`.
* A `std::string` is a list of bytes.
* A member function is a function from the object and the streams it touches
  to the object and the streams afterwards.
* Parts of the repository that are not in `bsafile.cpp` (the constants of
  `bsafile.h`, `readType`, `writeType`, `readZString`, the typedefs) are
  modelled from the specification and marked so. `calculateBSAHash`, whose
  algorithm the specification does not give, is a parameter.
-/

namespace BSA

/-! ## Bytes and fixed-width integers -/

/-- One byte of a stream or of a `std::string`. -/
abbrev Byte := Fin 256

/-- The `w` bytes of `n % 2 ^ (8 * w)`, least significant first: the object
representation of a `w`-byte unsigned integer on the little-endian hosts the
archive format is defined for. -/
def toLE : Nat → Nat → List Byte
  | 0, _ => []
  | w + 1, n => ⟨n % 256, Nat.mod_lt n (by decide)⟩ :: toLE w (n / 256)

/-- The unsigned integer whose little-endian object representation is `bs`. -/
def fromLE : List Byte → Nat
  | [] => 0
  | b :: bs => b.val + 256 * fromLE bs

/-- Modelled from the spec: the typedef `BSAHash` is declared outside
`bsafile.cpp`; the spec gives the name hash 8 bytes. This is `sizeof(BSAHash)`. -/
def sizeofBSAHash : Nat := 8

/-- Modelled from the spec: the typedef `BSAULong` is declared outside
`bsafile.cpp`; the spec gives the size word and the offset 4 bytes each. This is
`sizeof(BSAULong)`. -/
def sizeofBSAULong : Nat := 4

/-- Modelled from the spec: `File::SIZEMASK` is declared in `bsafile.h`; the spec
says the low 30 bits of the size word are the size. -/
def SIZEMASK : Nat := 2 ^ 30 - 1

/-- Modelled from the spec: `File::COMPRESSMASK` is declared in `bsafile.h`; the
spec says bit 30 of the size word is the compression flag. -/
def COMPRESSMASK : Nat := 2 ^ 30

/-- The constant of line 45, `static const uint32_t CHUNK_SIZE = 128 * 1024`. -/
def CHUNK_SIZE : Nat := 128 * 1024

/-! ## Streams -/

/-- A `std::fstream` on a file: the bytes of the file, the file position (a
`basic_filebuf` has one position for reading and writing), whether `failbit`
or `badbit` is set, and whether the exception mask makes a failed read throw
`std::ios_base::failure`. -/
structure FStream where
  data : List Byte
  pos : Nat
  fail : Bool
  exc : Bool
deriving DecidableEq

/-- The bytes of `d` after `bs` has been stored at position `p`: bytes in the
range are overwritten, a position past the end leaves a gap of zero bytes.
Storing no byte changes nothing. -/
def writeAt (d : List Byte) (p : Nat) (bs : List Byte) : List Byte :=
  if bs = [] then d
  else d.take p ++ List.replicate (p - d.length) 0 ++ bs ++ d.drop (p + bs.length)

namespace FStream

/-- The result of `tellp()` and `tellg()`: the position, or `-1` on a failed stream. -/
def tell (s : FStream) : Int :=
  if s.fail then -1 else (s.pos : Int)

/-- The stream after `seekg(off, beg)`: a failed stream ignores it. -/
def seekg (s : FStream) (off : Nat) : FStream :=
  if s.fail then s else { s with pos := off }

/-- Whether `seekg` throws `std::ios_base::failure`: on a failed stream the call
sets `failbit` again, which throws when the exception mask asks for it. -/
def seekgThrows (s : FStream) : Bool :=
  s.fail && s.exc

/-- The stream after `seekg(0, end)`. -/
def seekEnd (s : FStream) : FStream :=
  if s.fail then s else { s with pos := s.data.length }

/-- The bytes an unformatted read of `n` bytes obtains and the stream afterwards.
A failed stream supplies nothing; a read that meets the end of the file obtains
the bytes that are left and sets `failbit`. -/
def readBytes (s : FStream) (n : Nat) : List Byte × FStream :=
  if s.fail then ([], s)
  else
    let got := (s.data.drop s.pos).take n
    (got, { s with pos := s.pos + got.length, fail := decide (got.length < n) })

/-- The stream after `write(p, n)` where `bs` are the `n` bytes at `p`. A failed
stream ignores the call; storing the bytes itself does not fail. -/
def write (s : FStream) (bs : List Byte) : FStream :=
  if s.fail then s
  else { s with data := writeAt s.data s.pos bs, pos := s.pos + bs.length }

/-- The bytes between the file position and the end of the file. -/
def remaining (s : FStream) : List Byte := s.data.drop s.pos

end FStream

/-- The conversion `static_cast<BSAULong>(pos)` of a stream position. -/
def castBSAULong (p : Int) : Nat := (p % (2 ^ 32 : Int)).toNat

/-! ## Faults -/

/-- The exceptions the entry operations raise. -/
inductive Fault where
  /-- Modelled from the spec: the fault of `readType` when the stream cannot
  supply the bytes of a fixed record. -/
  | MalformedRecord : Fault
  /-- The `data_invalid_exception` of `readFileName`, with the values its message
  is built from: the name read, its hash, and the stored hash. -/
  | data_invalid_exception : List Byte → Nat → Nat → Fault
deriving DecidableEq

deriving instance DecidableEq for Except

/-- The result codes `writeData` returns; the enumeration is declared outside
`bsafile.cpp`, these are the enumerators the file uses. -/
inductive EErrorCode where
  | ERROR_NONE
  | ERROR_INVALIDDATA
  | ERROR_SOURCEFILEMISSING
deriving DecidableEq

/-! ## Helpers declared outside `bsafile.cpp` -/

/-- Modelled from the spec: `readType<T>` is defined outside `bsafile.cpp`. It
reads the `w` bytes of a `T` and fails with `MalformedRecord` if the stream
cannot supply the required byte count. -/
def readType (w : Nat) (file : FStream) : Except Fault (Nat × FStream) :=
  let r := file.readBytes w
  if r.1.length < w then Except.error Fault.MalformedRecord
  else Except.ok (fromLE r.1, r.2)

/-- Modelled from the spec: `writeType<T>` is defined outside `bsafile.cpp`. It
writes the `w` bytes of a `T`. -/
def writeType (w : Nat) (file : FStream) (value : Nat) : FStream :=
  file.write (toLE w value)

/-- Modelled from the spec: `readZString` is defined outside `bsafile.cpp`. It
reads characters until a terminating zero byte, which it consumes, and returns
the characters before it. The spec does not say what happens when the data ends
before a zero byte; here the bytes that are left are returned. -/
def readZString (file : FStream) : List Byte × FStream :=
  if file.fail then ([], file)
  else
    let rest := file.data.drop file.pos
    let name := rest.takeWhile (fun b => decide (b ≠ 0))
    (name, { file with pos := file.pos + name.length + (if name.length < rest.length then 1 else 0) })

/-! ## The entry -/

/-- Modelled from the spec: `Folder` is defined outside `bsafile.cpp`; an entry
uses only its `getFullPath()`. -/
structure Folder where
  getFullPath : List Byte
deriving DecidableEq

/-- Modelled from the spec: the texture header is an opaque structure passed
through unmodified. -/
abbrev FO4TextureHeader := List Byte

/-- Modelled from the spec: a texture chunk is an opaque structure passed through
unmodified. -/
abbrev FO4TextureChunk := List Byte

/-- The data members of `BSA::File`, under the names of the source. `m_Folder` is
a pointer that may be null. -/
structure File where
  m_Folder : Option Folder
  m_New : Bool
  m_Name : List Byte
  m_NameHash : Nat
  m_FileSize : Nat
  m_UncompressedFileSize : Nat
  m_DataOffset : Nat
  m_ToggleCompressed : Bool
  m_SourceFile : List Byte
  m_ToggleCompressedWrite : Bool
  m_TextureHeader : FO4TextureHeader
  m_TextureChunks : List FO4TextureChunk
  m_DataOffsetWrite : Nat
deriving DecidableEq

namespace File

/-- The constructor `File(std::fstream& file, Folder* folder)` of lines 47-56:
the entry parsed from a fixed record and the stream after it, or the fault of
the first `readType` that fails. -/
def fromStream (file : FStream) (folder : Option Folder) : Except Fault (File × FStream) :=
  match readType sizeofBSAHash file with
  | Except.error f => Except.error f
  | Except.ok (nameHash, file1) =>
    match readType sizeofBSAULong file1 with
    | Except.error f => Except.error f
    | Except.ok (fileSize, file2) =>
      match readType sizeofBSAULong file2 with
      | Except.error f => Except.error f
      | Except.ok (dataOffset, file3) =>
        Except.ok
          ({ m_Folder := folder
             m_New := false
             m_Name := []
             m_NameHash := nameHash
             m_FileSize := fileSize &&& SIZEMASK
             m_UncompressedFileSize := 0
             m_DataOffset := dataOffset
             m_ToggleCompressed := decide (fileSize &&& COMPRESSMASK ≠ 0)
             m_SourceFile := []
             m_ToggleCompressedWrite := false
             m_TextureHeader := []
             m_TextureChunks := []
             m_DataOffsetWrite := 0 }, file3)

/-- The constructor of lines 58-70, from the metadata of an existing blob. -/
def fromMetadata (calculateBSAHash : List Byte → Nat) (name : List Byte)
    (folder : Option Folder) (fileSize dataOffset uncompressedFileSize : Nat)
    (header : FO4TextureHeader) (texChunks : List FO4TextureChunk) : File :=
  { m_Folder := folder
    m_New := false
    m_Name := name
    m_NameHash := calculateBSAHash name
    m_FileSize := fileSize
    m_UncompressedFileSize := uncompressedFileSize
    m_DataOffset := dataOffset
    m_ToggleCompressed :=
      if fileSize > 0 ∧ uncompressedFileSize > 0 then true else false
    m_SourceFile := []
    m_ToggleCompressedWrite := false
    m_TextureHeader := header
    m_TextureChunks := texChunks
    m_DataOffsetWrite := 0 }

/-- The constructor of lines 72-80, for an entry whose payload is a loose file. -/
def fromLooseFile (calculateBSAHash : List Byte → Nat) (name sourceFile : List Byte)
    (folder : Option Folder) (toggleCompressed : Bool) : File :=
  { m_Folder := folder
    m_New := true
    m_Name := name
    m_NameHash := calculateBSAHash name
    m_FileSize := 0
    m_UncompressedFileSize := 0
    m_DataOffset := 0
    m_ToggleCompressed := toggleCompressed
    m_SourceFile := sourceFile
    m_ToggleCompressedWrite := toggleCompressed
    m_TextureHeader := []
    m_TextureChunks := []
    m_DataOffsetWrite := 0 }

/-- The accessor `getDataOffset()`. -/
def getDataOffset (self : File) : Nat := self.m_DataOffset

/-- The local `size` of `writeHeader` when it is written (lines 90-93):
`m_FileSize`, with `1 << 30` or-ed in when `m_ToggleCompressed` is set. -/
def sizeWord (self : File) : Nat :=
  if self.m_ToggleCompressed then self.m_FileSize ||| (1 <<< 30) else self.m_FileSize

/-- The member `writeHeader` of lines 87-96: the entry, which a const member
leaves as it is, and the stream after the three `writeType` calls. -/
def writeHeader (self : File) (file : FStream) : File × FStream :=
  let file1 := writeType sizeofBSAHash file self.m_NameHash
  let file2 := writeType sizeofBSAULong file1 self.sizeWord
  let file3 := writeType sizeofBSAULong file2 self.m_DataOffsetWrite
  (self, file3)

/-- The member `getFilePath` of lines 82-85: the folder path, a backslash (byte
92) and the name. The source dereferences `m_Folder`; a null folder gives no
result. -/
def getFilePath (self : File) : Option (List Byte) :=
  match self.m_Folder with
  | none => none
  | some folder => some (folder.getFullPath ++ [92] ++ self.m_Name)

/-- The member `readFileName` of lines 142-152: the entry and the stream when the
call ends, and the exception that ends it, if one does. The name is assigned
before the hashes are compared. -/
def readFileName (calculateBSAHash : List Byte → Nat) (self : File) (file : FStream)
    (testHashes : Bool) : File × FStream × Option Fault :=
  let r := readZString file
  let self1 := { self with m_Name := r.1 }
  if testHashes then
    if calculateBSAHash self1.m_Name ≠ self1.m_NameHash then
      (self1, r.2, some (Fault.data_invalid_exception self1.m_Name
        (calculateBSAHash self1.m_Name) self1.m_NameHash))
    else (self1, r.2, none)
  else (self1, r.2, none)

end File

/-! ## Payload transfer -/

/-- The buffer `inBuffer` after a read stored the bytes `got` at its start; the
cells behind them keep what they held. -/
def bufStore (buf : Nat → Byte) (got : List Byte) : Nat → Byte :=
  fun i => got.getD i (buf i)

/-- The first `n` bytes of the buffer. -/
def bufBytes (buf : Nat → Byte) (n : Nat) : List Byte :=
  (List.range n).map buf

/-- The call `s.read(inBuffer.get(), n)`: whether it throws
`std::ios_base::failure` (the read fails and the exception mask asks for it),
the stream and the buffer afterwards. -/
def FStream.read (s : FStream) (buf : Nat → Byte) (n : Nat) :
    Bool × FStream × (Nat → Byte) :=
  let r := s.readBytes n
  (s.exc && r.2.fail, r.2, bufStore buf r.1)

/-- The loop of lines 112-117 and 132-137, `while (sizeLeft > 0)`, with the
number of iterations bounded by `fuel`; `writeData` passes `sizeLeft` itself,
which is enough since every iteration takes at least one byte off `sizeLeft`.
The result says whether a read threw, and gives the two streams. -/
def copyLoop : Nat → Nat → FStream → FStream → (Nat → Byte) → Bool × FStream × FStream
  | 0, _, source, target, _ => (false, source, target)
  | fuel + 1, sizeLeft, source, target, inBuffer =>
    if sizeLeft > 0 then
      let chunkSize := min sizeLeft CHUNK_SIZE
      let r := source.read inBuffer chunkSize
      if r.1 then (true, r.2.1, target)
      else
        copyLoop fuel (sizeLeft - chunkSize) r.2.1
          (target.write (bufBytes r.2.2 chunkSize)) r.2.2
    else (false, source, target)

/-- The values the local `chunkSize` takes in the successive iterations of the
loop of lines 112-117 and 132-137 when it runs to its end: while `sizeLeft > 0`,
`chunkSize = min(sizeLeft, CHUNK_SIZE)` and `sizeLeft -= chunkSize`. As in
`copyLoop` the number of iterations is bounded by `fuel`. -/
def chunkSizes : Nat → Nat → List Nat
  | 0, _ => []
  | fuel + 1, sizeLeft =>
    if sizeLeft > 0 then
      min sizeLeft CHUNK_SIZE :: chunkSizes fuel (sizeLeft - min sizeLeft CHUNK_SIZE)
    else []

/-- One iteration of the loop body (lines 113-116) with the given `chunkSize`, on
the state made of: whether a read has thrown, the source, the target and the
buffer. Once a read has thrown the loop has been left and nothing more happens. -/
def copyStep (st : Bool × FStream × FStream × (Nat → Byte)) (chunkSize : Nat) :
    Bool × FStream × FStream × (Nat → Byte) :=
  if st.1 then st
  else
    let r := st.2.1.read st.2.2.2 chunkSize
    if r.1 then (true, r.2.1, st.2.2.1, r.2.2)
    else (false, r.2.1, st.2.2.1.write (bufBytes r.2.2 chunkSize), r.2.2)

/-- What a call of `writeData` leaves: the result code, whether an exception left
the call instead (`result` is then the value the local held, and nothing is
returned), the entry (its mutable members may have changed) and the two
streams. -/
structure WriteDataResult where
  result : EErrorCode
  threw : Bool
  self : File
  sourceArchive : FStream
  targetArchive : FStream
deriving DecidableEq

/-- The member `writeData` of lines 98-140. `disk` gives the content of the loose
files that can be opened, `mem` the content of the freshly allocated buffer. The
`seekg` of line 108 stands before the `try` of line 110: when it throws, the
exception leaves the call. An exception of a read inside the loop is caught at
line 118. -/
def File.writeData (disk : List Byte → Option (List Byte)) (mem : Nat → Byte)
    (self : File) (sourceArchive targetArchive : FStream) : WriteDataResult :=
  let self1 := { self with m_DataOffsetWrite := castBSAULong targetArchive.tell }
  if self1.m_SourceFile.length = 0 then
    if sourceArchive.seekgThrows then
      { result := EErrorCode.ERROR_NONE
        threw := true
        self := self1
        sourceArchive := sourceArchive
        targetArchive := targetArchive }
    else
      let source1 := sourceArchive.seekg self1.m_DataOffset
      let r := copyLoop self1.m_FileSize self1.m_FileSize source1 targetArchive mem
      { result := if r.1 then EErrorCode.ERROR_INVALIDDATA else EErrorCode.ERROR_NONE
        threw := false
        self := self1
        sourceArchive := r.2.1
        targetArchive := r.2.2 }
  else
    match disk self1.m_SourceFile with
    | none =>
      { result := EErrorCode.ERROR_SOURCEFILEMISSING
        threw := false
        self := self1
        sourceArchive := sourceArchive
        targetArchive := targetArchive }
    | some content =>
      let sourceFile : FStream := { data := content, pos := 0, fail := false, exc := false }
      let sourceFile1 := sourceFile.seekEnd
      let self2 := { self1 with m_FileSize := castBSAULong sourceFile1.tell }
      let sourceFile2 := sourceFile1.seekg 0
      let r := copyLoop self2.m_FileSize self2.m_FileSize sourceFile2 targetArchive mem
      { result := EErrorCode.ERROR_NONE
        threw := r.1
        self := self2
        sourceArchive := sourceArchive
        targetArchive := r.2.2 }

/-- The copy the spec describes, without chunks: the `n` bytes of the source at
position `off` are written to the target at its position in one piece. -/
def unchunkedCopy (source : FStream) (off n : Nat) (target : FStream) : FStream :=
  target.write ((source.data.drop off).take n)

/-- The comparator `ByOffset` of lines 40-43. -/
def ByOffset (LHS RHS : File) : Bool :=
  decide (LHS.getDataOffset < RHS.getDataOffset)

/-! ## Records -/

/-- The 16 bytes of the fixed record with the three given fields. -/
def recordBytes (nameHash sizeWord dataOffset : Nat) : List Byte :=
  toLE sizeofBSAHash nameHash ++ toLE sizeofBSAULong sizeWord ++ toLE sizeofBSAULong dataOffset

/-- The entry the parsing constructor builds from the 16 bytes `r` of a record. -/
def recordEntry (r : List Byte) (folder : Option Folder) : File :=
  { m_Folder := folder
    m_New := false
    m_Name := []
    m_NameHash := fromLE (r.take 8)
    m_FileSize := fromLE ((r.drop 8).take 4) &&& SIZEMASK
    m_UncompressedFileSize := 0
    m_DataOffset := fromLE ((r.drop 12).take 4)
    m_ToggleCompressed := decide (fromLE ((r.drop 8).take 4) &&& COMPRESSMASK ≠ 0)
    m_SourceFile := []
    m_ToggleCompressedWrite := false
    m_TextureHeader := []
    m_TextureChunks := []
    m_DataOffsetWrite := 0 }

/-! ## Byte codec -/

theorem toLE_length (w n : Nat) : (toLE w n).length = w := by
  induction w generalizing n with
  | zero => rfl
  | succ w ih => simp [toLE, ih]

theorem fromLE_toLE (w n : Nat) : fromLE (toLE w n) = n % 2 ^ (8 * w) := by
  induction w generalizing n with
  | zero => simp [toLE, fromLE, Nat.mod_one]
  | succ w ih =>
    simp only [toLE, fromLE, ih]
    have h : 2 ^ (8 * (w + 1)) = 256 * 2 ^ (8 * w) := by
      rw [Nat.mul_add, Nat.pow_add]; norm_num [Nat.mul_comm]
    rw [h, Nat.mod_mul]

theorem toLE_fromLE (bs : List Byte) : toLE bs.length (fromLE bs) = bs := by
  induction bs with
  | nil => rfl
  | cons b bs ih =>
    have hb : b.val < 256 := b.isLt
    simp only [List.length_cons, toLE, fromLE]
    congr 1
    · apply Fin.ext
      simp [Nat.add_mul_mod_self_left, Nat.mod_eq_of_lt hb]
    · have : (b.val + 256 * fromLE bs) / 256 = fromLE bs := by omega
      rw [this, ih]

theorem sizeWord_bits (raw : Nat) :
    (if decide (raw &&& COMPRESSMASK ≠ 0) = true then (raw &&& SIZEMASK) ||| (1 <<< 30)
      else raw &&& SIZEMASK) = raw % 2 ^ 31 := by
  have h1 : raw &&& SIZEMASK = raw % 2 ^ 30 := Nat.and_pow_two_sub_one_eq_mod raw 30
  have h2 : raw &&& COMPRESSMASK = (raw.testBit 30).toNat * 2 ^ 30 := Nat.and_two_pow raw 30
  rw [h1, h2]
  cases hb : raw.testBit 30
  · simp only [Bool.toNat_false, Nat.zero_mul, ne_eq, not_true_eq_false, decide_False,
      Bool.false_eq_true, if_false]
    apply Nat.eq_of_testBit_eq
    intro i
    simp only [Nat.testBit_mod_two_pow]
    rcases Nat.lt_trichotomy i 30 with h | h | h
    · have : i < 31 := by omega
      simp [h, this]
    · subst h; simp [hb]
    · have h3 : ¬ i < 30 := by omega
      have h4 : ¬ i < 31 := by omega
      simp [h3, h4]
  · have : (1 : Nat) <<< 30 = 2 ^ 30 := by decide
    simp only [Bool.toNat_true, Nat.one_mul, ne_eq, this]
    rw [if_pos (by decide)]
    apply Nat.eq_of_testBit_eq
    intro i
    simp only [Nat.testBit_or, Nat.testBit_mod_two_pow, Nat.testBit_two_pow]
    rcases Nat.lt_trichotomy i 30 with h | h | h
    · have : i < 31 := by omega
      have h5 : ¬ 30 = i := by omega
      simp [h, this, h5]
    · subst h; simp [hb]
    · have h3 : ¬ i < 30 := by omega
      have h4 : ¬ i < 31 := by omega
      have h5 : ¬ 30 = i := by omega
      simp [h3, h4, h5]


theorem remaining_advance (s : FStream) (k : Nat) :
    FStream.remaining { s with pos := s.pos + k } = s.remaining.drop k := by
  simp [FStream.remaining, List.drop_drop, Nat.add_comm]

theorem readBytes_of_le (s : FStream) (n : Nat) (hgood : s.fail = false)
    (hlen : n ≤ s.remaining.length) :
    s.readBytes n = (s.remaining.take n, { s with pos := s.pos + n }) := by
  have hl : ((s.data.drop s.pos).take n).length = n := by
    rw [List.length_take]; exact Nat.min_eq_left hlen
  have hn : ¬ (n < n) := Nat.lt_irrefl n
  cases s with
  | mk data pos fail exc =>
    simp only at hgood
    subst hgood
    simp only [FStream.readBytes, FStream.remaining, hl, hn, decide_False, Bool.false_eq_true,
      if_false]

theorem readBytes_length_le (s : FStream) (n : Nat) :
    (s.readBytes n).1.length ≤ s.remaining.length := by
  unfold FStream.readBytes FStream.remaining
  split
  · simp
  · simp only [List.length_take]; exact Nat.min_le_right _ _

theorem readType_ok (w : Nat) (s : FStream) (hgood : s.fail = false)
    (hlen : w ≤ s.remaining.length) :
    readType w s = Except.ok (fromLE (s.remaining.take w), { s with pos := s.pos + w }) := by
  have hl : ¬ ((s.remaining.take w).length < w) := by
    rw [List.length_take, Nat.min_eq_left hlen]; exact Nat.lt_irrefl w
  simp only [readType, readBytes_of_le s w hgood hlen, hl, if_false]

theorem readType_error (w : Nat) (s : FStream)
    (h : s.fail = true ∨ s.remaining.length < w) (hw : 0 < w) :
    readType w s = Except.error Fault.MalformedRecord := by
  have hl : (s.readBytes w).1.length < w := by
    rcases h with h | h
    · simp [FStream.readBytes, h, hw]
    · exact Nat.lt_of_le_of_lt (readBytes_length_le s w) h
  simp only [readType, hl, if_true]

theorem fromStream_ok (s : FStream) (folder : Option Folder) (hgood : s.fail = false)
    (hlen : 16 ≤ s.remaining.length) :
    File.fromStream s folder
      = Except.ok (recordEntry s.remaining folder, { s with pos := s.pos + 16 }) := by
  have h1 := readType_ok 8 s hgood (by omega)
  have h2 := readType_ok 4 { s with pos := s.pos + 8 } hgood
    (by rw [remaining_advance, List.length_drop]; omega)
  have h3 := readType_ok 4 { s with pos := s.pos + 8 + 4 } hgood
    (by rw [Nat.add_assoc, remaining_advance, List.length_drop]; omega)
  simp only [remaining_advance] at h2
  simp only [Nat.add_assoc, remaining_advance] at h3
  simp only [File.fromStream, sizeofBSAHash, sizeofBSAULong, h1, h2, Nat.add_assoc, h3,
    recordEntry]

theorem fromStream_error (s : FStream) (folder : Option Folder)
    (h : s.fail = true ∨ s.remaining.length < 16) :
    File.fromStream s folder = Except.error Fault.MalformedRecord := by
  by_cases h8 : s.fail = true ∨ s.remaining.length < 8
  · simp only [File.fromStream, sizeofBSAHash, readType_error 8 s h8 (by decide)]
  · have hgood : s.fail = false := by
      cases hf : s.fail
      · rfl
      · exact absurd (Or.inl hf) h8
    have hlen : s.remaining.length < 16 := by
      rcases h with h | h
      · rw [hgood] at h; cases h
      · exact h
    have h8l : 8 ≤ s.remaining.length := by
      have := fun hh => h8 (Or.inr hh)
      omega
    have h1 := readType_ok 8 s hgood h8l
    by_cases h12 : s.remaining.length < 12
    · have h2 := readType_error 4 { s with pos := s.pos + 8 }
        (Or.inr (by rw [remaining_advance, List.length_drop]; omega)) (by decide)
      simp only [File.fromStream, sizeofBSAHash, sizeofBSAULong, h1, h2]
    · have h2 := readType_ok 4 { s with pos := s.pos + 8 } hgood
        (by rw [remaining_advance, List.length_drop]; omega)
      have h3 := readType_error 4 { s with pos := s.pos + 8 + 4 }
        (Or.inr (by rw [Nat.add_assoc, remaining_advance, List.length_drop]; omega)) (by decide)
      simp only [File.fromStream, sizeofBSAHash, sizeofBSAULong, h1, h2, h3]

theorem writeAt_nil (d : List Byte) (p : Nat) : writeAt d p [] = d := by
  simp [writeAt]

theorem writeAt_writeAt (d : List Byte) (p : Nat) (a b : List Byte) :
    writeAt (writeAt d p a) (p + a.length) b = writeAt d p (a ++ b) := by
  by_cases ha : a = []
  · subst ha; simp [writeAt_nil]
  by_cases hb : b = []
  · subst hb; simp [writeAt_nil]
  have hab : a ++ b ≠ [] := by simp [ha]
  have hpre : (d.take p ++ List.replicate (p - d.length) (0 : Byte)).length = p := by
    simp only [List.length_append, List.length_take, List.length_replicate]; omega
  generalize hq : d.take p ++ List.replicate (p - d.length) (0 : Byte) = pre at hpre
  have hw : writeAt d p a = (pre ++ a) ++ d.drop (p + a.length) := by
    simp only [writeAt, hq, ha, if_false]
  have hl : (pre ++ a).length = p + a.length := by simp [hpre]
  rw [hw]
  unfold writeAt
  rw [if_neg hb, if_neg hab, hq]
  have h1 : ((pre ++ a) ++ d.drop (p + a.length)).take (p + a.length) = pre ++ a := by
    rw [← hl]; exact List.take_left' rfl
  have h2 : p + a.length - ((pre ++ a) ++ d.drop (p + a.length)).length = 0 := by
    simp only [List.length_append] at hl ⊢
    omega
  have h3 : ((pre ++ a) ++ d.drop (p + a.length)).drop (p + a.length + b.length)
      = d.drop (p + (a ++ b).length) := by
    rw [List.drop_append_eq_append_drop, hl]
    have : (pre ++ a).drop (p + a.length + b.length) = [] := by
      apply List.drop_eq_nil_of_le; omega
    rw [this, List.drop_drop, List.length_append]
    simp only [List.nil_append]
    congr 1
    omega
  rw [h1, h2, h3]
  simp

theorem write_nil (s : FStream) : s.write [] = s := by
  cases s with
  | mk data pos fail exc => cases fail <;> simp [FStream.write, writeAt_nil]

theorem write_write (s : FStream) (a b : List Byte) :
    (s.write a).write b = s.write (a ++ b) := by
  cases hf : s.fail
  · simp only [FStream.write, hf, Bool.false_eq_true, if_false, writeAt_writeAt,
      List.length_append, Nat.add_assoc]
  · simp only [FStream.write, hf, if_true]

theorem writeHeader_eq (e : File) (file : FStream) :
    e.writeHeader file
      = (e, file.write (recordBytes e.m_NameHash e.sizeWord e.m_DataOffsetWrite)) := by
  simp only [File.writeHeader, writeType, write_write, recordBytes]

theorem write_at_end (s : FStream) (bs : List Byte) (hgood : s.fail = false)
    (hend : s.pos = s.data.length) :
    (s.write bs).data = s.data ++ bs ∧ (s.write bs).pos = s.pos + bs.length := by
  by_cases hb : bs = []
  · subst hb; simp [write_nil]
  · simp [FStream.write, hgood, writeAt, hend, hb]


theorem recordEntry_append (r rest : List Byte) (folder : Option Folder) (hr : r.length = 16) :
    recordEntry (r ++ rest) folder = recordEntry r folder := by
  have h8 : (r ++ rest).take 8 = r.take 8 := by
    rw [List.take_append_of_le_length (by omega)]
  have h12 : ((r ++ rest).drop 8).take 4 = (r.drop 8).take 4 := by
    rw [List.drop_append_of_le_length (by omega),
      List.take_append_of_le_length (by rw [List.length_drop]; omega)]
  have h16 : ((r ++ rest).drop 12).take 4 = (r.drop 12).take 4 := by
    rw [List.drop_append_of_le_length (by omega),
      List.take_append_of_le_length (by rw [List.length_drop]; omega)]
  simp only [recordEntry, h8, h12, h16]

theorem record_split (r : List Byte) (hr : r.length = 16) :
    r.take 8 ++ (r.drop 8).take 4 ++ (r.drop 12).take 4 = r := by
  have h1 : (r.drop 12).take 4 = r.drop 12 := by
    apply List.take_of_length_le; rw [List.length_drop]; omega
  have h2 : r.drop 12 = (r.drop 8).drop 4 := by rw [List.drop_drop]
  rw [h1, h2, List.append_assoc, List.take_append_drop, List.take_append_drop]

theorem recordBytes_fields (h raw off : Nat) :
    (recordBytes h raw off).length = 16 ∧
    (recordBytes h raw off).take 8 = toLE 8 h ∧
    ((recordBytes h raw off).drop 8).take 4 = toLE 4 raw ∧
    ((recordBytes h raw off).drop 12).take 4 = toLE 4 off := by
  have l8 := toLE_length 8 h
  have l4 := toLE_length 4 raw
  have l4o := toLE_length 4 off
  refine ⟨?_, ?_, ?_, ?_⟩
  · simp [recordBytes, sizeofBSAHash, sizeofBSAULong, toLE_length]
  · simp only [recordBytes, sizeofBSAHash, sizeofBSAULong, List.append_assoc]
    exact List.take_left' l8
  · simp only [recordBytes, sizeofBSAHash, sizeofBSAULong, List.append_assoc]
    rw [List.drop_left' l8]
    exact List.take_left' l4
  · have : (toLE 8 h ++ toLE 4 raw).length = 12 := by simp [l8, l4]
    simp only [recordBytes, sizeofBSAHash, sizeofBSAULong]
    rw [List.drop_left' this]
    apply List.take_of_length_le
    omega

/-! ## Claims about the fixed record -/

/-- C1, amended. A size word `rawSize` read by the parsing constructor gives
`m_FileSize = rawSize & SIZEMASK` (the low 30 bits) and
`m_ToggleCompressed = ((rawSize & COMPRESSMASK) != 0)` (bit 30); the size word
`writeHeader` builds from them is `rawSize` with bit 31 cleared, which is
`rawSize` exactly when bit 31 of `rawSize` is clear. -/
theorem C1_size_word_of_parsed (nameHash rawSize dataOffset : Nat) (rest : List Byte)
    (file : FStream) (folder : Option Folder)
    (hraw : rawSize < 2 ^ 32)
    (hgood : file.fail = false)
    (hrec : file.remaining = recordBytes nameHash rawSize dataOffset ++ rest) :
    ∃ e file1, File.fromStream file folder = Except.ok (e, file1) ∧
      e.m_FileSize = rawSize &&& SIZEMASK ∧
      e.m_FileSize = rawSize % 2 ^ 30 ∧
      e.m_ToggleCompressed = decide (rawSize &&& COMPRESSMASK ≠ 0) ∧
      e.m_ToggleCompressed = rawSize.testBit 30 ∧
      e.sizeWord = rawSize % 2 ^ 31 ∧
      (e.sizeWord = rawSize ↔ rawSize < 2 ^ 31) := by
  obtain ⟨hl, -, hsz, -⟩ := recordBytes_fields nameHash rawSize dataOffset
  have hlen : 16 ≤ file.remaining.length := by
    rw [hrec, List.length_append, hl]; omega
  have hfrom : fromLE (((recordBytes nameHash rawSize dataOffset).drop 8).take 4) = rawSize := by
    rw [hsz, fromLE_toLE]; exact Nat.mod_eq_of_lt hraw
  have hword := sizeWord_bits rawSize
  refine ⟨recordEntry file.remaining folder, _, fromStream_ok file folder hgood hlen, ?_⟩
  rw [hrec, recordEntry_append _ _ _ hl]
  simp only [recordEntry, File.sizeWord, hfrom]
  refine ⟨trivial, Nat.and_pow_two_sub_one_eq_mod rawSize 30, trivial, ?_, hword, ?_⟩
  · have h2 : rawSize &&& COMPRESSMASK = (rawSize.testBit 30).toNat * 2 ^ 30 :=
      Nat.and_two_pow rawSize 30
    rw [h2]
    cases rawSize.testBit 30 <;> simp
  · rw [hword]
    constructor
    · intro h
      rw [← h]
      exact Nat.mod_lt _ (by decide)
    · intro h
      exact Nat.mod_eq_of_lt h

/-- C1, witness: the size word `2 ^ 30 + 9` of a compressed entry of 9 bytes. -/
theorem C1_size_word_of_parsed_witness :
    2 ^ 30 + 9 < 2 ^ 32 ∧
    ∃ e file1,
      File.fromStream { data := recordBytes 5 (2 ^ 30 + 9) 77, pos := 0, fail := false, exc := false }
        none = Except.ok (e, file1) ∧
      e.m_FileSize = (2 ^ 30 + 9) &&& SIZEMASK ∧
      e.m_FileSize = (2 ^ 30 + 9) % 2 ^ 30 ∧
      e.m_ToggleCompressed = decide ((2 ^ 30 + 9) &&& COMPRESSMASK ≠ 0) ∧
      e.m_ToggleCompressed = (2 ^ 30 + 9).testBit 30 ∧
      e.sizeWord = (2 ^ 30 + 9) % 2 ^ 31 ∧
      (e.sizeWord = 2 ^ 30 + 9 ↔ 2 ^ 30 + 9 < 2 ^ 31) :=
  ⟨by decide,
   C1_size_word_of_parsed 5 (2 ^ 30 + 9) 77 []
     { data := recordBytes 5 (2 ^ 30 + 9) 77, pos := 0, fail := false, exc := false } none
     (by decide) rfl (by simp [FStream.remaining])⟩

/-- C1, counterexample: the 32-bit size word `2 ^ 31` is parsed to size 0 and flag
false as claimed, but the size word `writeHeader` builds from them is 0. -/
theorem C1_counterexample :
    ∃ e file1,
      File.fromStream { data := recordBytes 0 (2 ^ 31) 0, pos := 0, fail := false, exc := false }
        none = Except.ok (e, file1) ∧
      e.m_FileSize = 2 ^ 31 &&& SIZEMASK ∧
      e.m_ToggleCompressed = decide (2 ^ 31 &&& COMPRESSMASK ≠ 0) ∧
      e.sizeWord = 0 ∧ e.sizeWord ≠ 2 ^ 31 := by
  refine ⟨_, _, rfl, ?_, ?_, ?_, ?_⟩ <;> decide

/-- C2, amended. Parsing a 16-byte record `r` and calling `writeHeader` on the
entry as parsed writes the name hash of `r`, the size word of `r` with bit 31
cleared, and the offset 0 (the `m_DataOffsetWrite` the constructor sets). These
are the bytes of `r` exactly when bit 31 of its size word is clear and its data
offset is 0. When bit 31 is clear and `m_DataOffsetWrite` has been set to the
data offset of the record, `writeHeader` writes `r`. -/
theorem C2_parse_then_writeHeader (r rest : List Byte) (file out : FStream)
    (folder : Option Folder)
    (hr : r.length = 16)
    (hgood : file.fail = false)
    (hrec : file.remaining = r ++ rest) :
    ∃ e file1, File.fromStream file folder = Except.ok (e, file1) ∧
      (e.writeHeader out).2
        = out.write (r.take 8 ++ toLE 4 (fromLE ((r.drop 8).take 4) % 2 ^ 31) ++ toLE 4 0) ∧
      (r.take 8 ++ toLE 4 (fromLE ((r.drop 8).take 4) % 2 ^ 31) ++ toLE 4 0 = r
        ↔ fromLE ((r.drop 8).take 4) < 2 ^ 31 ∧ fromLE ((r.drop 12).take 4) = 0) ∧
      (fromLE ((r.drop 8).take 4) < 2 ^ 31 →
        (File.writeHeader { e with m_DataOffsetWrite := e.m_DataOffset } out).2 = out.write r) := by
  have hlen : 16 ≤ file.remaining.length := by
    rw [hrec, List.length_append, hr]; omega
  have l8 : (r.take 8).length = 8 := by rw [List.length_take]; omega
  have l4 : ((r.drop 8).take 4).length = 4 := by
    rw [List.length_take, List.length_drop]; omega
  have l4o : ((r.drop 12).take 4).length = 4 := by
    rw [List.length_take, List.length_drop]; omega
  have e8 : toLE 8 (fromLE (r.take 8)) = r.take 8 := by
    have := toLE_fromLE (r.take 8); rwa [l8] at this
  have e4 : toLE 4 (fromLE ((r.drop 8).take 4)) = (r.drop 8).take 4 := by
    have := toLE_fromLE ((r.drop 8).take 4); rwa [l4] at this
  have e4o : toLE 4 (fromLE ((r.drop 12).take 4)) = (r.drop 12).take 4 := by
    have := toLE_fromLE ((r.drop 12).take 4); rwa [l4o] at this
  have hword := sizeWord_bits (fromLE ((r.drop 8).take 4))
  have hsw : (recordEntry r folder).sizeWord = fromLE ((r.drop 8).take 4) % 2 ^ 31 := by
    simp only [recordEntry, File.sizeWord]; exact hword
  refine ⟨recordEntry file.remaining folder, _, fromStream_ok file folder hgood hlen, ?_⟩
  rw [hrec, recordEntry_append _ _ _ hr]
  refine ⟨?_, ?_, ?_⟩
  · rw [writeHeader_eq, hsw]
    simp only [recordBytes, recordEntry, sizeofBSAHash, sizeofBSAULong, e8]
  · constructor
    · intro h
      have hs := h.trans (record_split r hr).symm
      have h' := List.append_inj hs (by simp [l8, l4, toLE_length])
      have h1 := List.append_inj h'.1 (by simp [l8])
      have hsz : fromLE ((r.drop 8).take 4) % 2 ^ 31 = fromLE ((r.drop 8).take 4) := by
        have h2 := congrArg fromLE h1.2
        rw [fromLE_toLE] at h2
        have hb : fromLE ((r.drop 8).take 4) % 2 ^ 31 < 2 ^ (8 * 4) :=
          Nat.lt_of_lt_of_le (Nat.mod_lt _ (by decide)) (by decide)
        rw [Nat.mod_eq_of_lt hb] at h2
        simpa using h2
      have hoff : fromLE ((r.drop 12).take 4) = 0 := by
        have h2 := congrArg fromLE h'.2
        rw [fromLE_toLE] at h2
        simpa using h2.symm
      refine ⟨?_, hoff⟩
      rw [← hsz]
      exact Nat.mod_lt _ (by decide)
    · rintro ⟨h1, h2⟩
      rw [Nat.mod_eq_of_lt h1, e4, ← h2, e4o]
      exact record_split r hr
  · intro h1
    rw [writeHeader_eq]
    have hsw2 : File.sizeWord { recordEntry r folder with
        m_DataOffsetWrite := (recordEntry r folder).m_DataOffset }
        = fromLE ((r.drop 8).take 4) := by
      have : File.sizeWord { recordEntry r folder with
          m_DataOffsetWrite := (recordEntry r folder).m_DataOffset }
          = (recordEntry r folder).sizeWord := rfl
      rw [this, hsw, Nat.mod_eq_of_lt h1]
    rw [hsw2]
    simp only [recordBytes, recordEntry, sizeofBSAHash, sizeofBSAULong, e8, e4, e4o]
    rw [record_split r hr]

/-- C2, witness: the record with hash 5, size word `2 ^ 30 + 9` and offset 77. -/
theorem C2_parse_then_writeHeader_witness :
    (recordBytes 5 (2 ^ 30 + 9) 77).length = 16 ∧
    ∃ e file1,
      File.fromStream { data := recordBytes 5 (2 ^ 30 + 9) 77, pos := 0, fail := false, exc := false }
        none = Except.ok (e, file1) ∧
      (e.writeHeader { data := [], pos := 0, fail := false, exc := false }).2
        = FStream.write { data := [], pos := 0, fail := false, exc := false }
            ((recordBytes 5 (2 ^ 30 + 9) 77).take 8
              ++ toLE 4 (fromLE (((recordBytes 5 (2 ^ 30 + 9) 77).drop 8).take 4) % 2 ^ 31)
              ++ toLE 4 0) ∧
      ((recordBytes 5 (2 ^ 30 + 9) 77).take 8
          ++ toLE 4 (fromLE (((recordBytes 5 (2 ^ 30 + 9) 77).drop 8).take 4) % 2 ^ 31)
          ++ toLE 4 0 = recordBytes 5 (2 ^ 30 + 9) 77
        ↔ fromLE (((recordBytes 5 (2 ^ 30 + 9) 77).drop 8).take 4) < 2 ^ 31
          ∧ fromLE (((recordBytes 5 (2 ^ 30 + 9) 77).drop 12).take 4) = 0) ∧
      (fromLE (((recordBytes 5 (2 ^ 30 + 9) 77).drop 8).take 4) < 2 ^ 31 →
        (File.writeHeader { e with m_DataOffsetWrite := e.m_DataOffset }
          { data := [], pos := 0, fail := false, exc := false }).2
          = FStream.write { data := [], pos := 0, fail := false, exc := false }
              (recordBytes 5 (2 ^ 30 + 9) 77)) :=
  ⟨by decide,
   C2_parse_then_writeHeader (recordBytes 5 (2 ^ 30 + 9) 77) []
     { data := recordBytes 5 (2 ^ 30 + 9) 77, pos := 0, fail := false, exc := false }
     { data := [], pos := 0, fail := false, exc := false } none
     (by decide) rfl (by simp [FStream.remaining])⟩

/-- C2, counterexample: two records that parse and are not written back. The
record with hash 0, size word 0 and data offset 1, and the record with hash 0,
size word `2 ^ 31` and data offset 0: for each, `writeHeader` on the entry as
parsed, into an empty stream, writes sixteen zero bytes, not the record. -/
theorem C2_counterexample :
    (∃ e file1,
      File.fromStream { data := recordBytes 0 0 1, pos := 0, fail := false, exc := false }
        none = Except.ok (e, file1) ∧
      (e.writeHeader { data := [], pos := 0, fail := false, exc := false }).2.data
        = List.replicate 16 0 ∧
      (e.writeHeader { data := [], pos := 0, fail := false, exc := false }).2.data
        ≠ recordBytes 0 0 1) ∧
    (∃ e file1,
      File.fromStream { data := recordBytes 0 (2 ^ 31) 0, pos := 0, fail := false, exc := false }
        none = Except.ok (e, file1) ∧
      (e.writeHeader { data := [], pos := 0, fail := false, exc := false }).2.data
        = List.replicate 16 0 ∧
      (e.writeHeader { data := [], pos := 0, fail := false, exc := false }).2.data
        ≠ recordBytes 0 (2 ^ 31) 0) := by
  constructor
  · refine ⟨_, _, rfl, ?_, ?_⟩ <;> decide
  · refine ⟨_, _, rfl, ?_, ?_⟩ <;> decide

/-- C8. `writeHeader` leaves the entry as it is and writes three fields in this
order: `m_NameHash`, a size word that is `m_FileSize | 2 ^ 30` when
`m_ToggleCompressed` is set and `m_FileSize` otherwise (the flag is taken from the
entry, whatever `m_FileSize` is), and `m_DataOffsetWrite`. The three writes
amount to one write of the 16 bytes; on a stream positioned at its end they are
appended. A size below `2 ^ 32` is written as it is. -/
theorem C8_writeHeader_fields (e : File) (file : FStream) :
    (e.writeHeader file).1 = e ∧
    (e.writeHeader file).2
      = ((file.write (toLE 8 e.m_NameHash)).write
          (toLE 4 (if e.m_ToggleCompressed then e.m_FileSize ||| 2 ^ 30 else e.m_FileSize))).write
          (toLE 4 e.m_DataOffsetWrite) ∧
    (e.writeHeader file).2
      = file.write (toLE 8 e.m_NameHash
          ++ toLE 4 (if e.m_ToggleCompressed then e.m_FileSize ||| 2 ^ 30 else e.m_FileSize)
          ++ toLE 4 e.m_DataOffsetWrite) ∧
    (file.fail = false → file.pos = file.data.length →
      (e.writeHeader file).2.data
        = file.data ++ (toLE 8 e.m_NameHash
          ++ toLE 4 (if e.m_ToggleCompressed then e.m_FileSize ||| 2 ^ 30 else e.m_FileSize)
          ++ toLE 4 e.m_DataOffsetWrite) ∧
      (e.writeHeader file).2.pos = file.pos + 16) ∧
    (e.m_FileSize < 2 ^ 32 →
      fromLE (toLE 4 (if e.m_ToggleCompressed then e.m_FileSize ||| 2 ^ 30 else e.m_FileSize))
        = (if e.m_ToggleCompressed then e.m_FileSize ||| 2 ^ 30 else e.m_FileSize)) := by
  have hsh : (1 : Nat) <<< 30 = 2 ^ 30 := by decide
  have hw : e.sizeWord
      = (if e.m_ToggleCompressed then e.m_FileSize ||| 2 ^ 30 else e.m_FileSize) := by
    simp only [File.sizeWord, hsh]
  have h1 : (e.writeHeader file).2
      = file.write (toLE 8 e.m_NameHash
          ++ toLE 4 (if e.m_ToggleCompressed then e.m_FileSize ||| 2 ^ 30 else e.m_FileSize)
          ++ toLE 4 e.m_DataOffsetWrite) := by
    rw [writeHeader_eq, hw]; rfl
  refine ⟨rfl, ?_, h1, ?_, ?_⟩
  · rw [h1, write_write, write_write, List.append_assoc]
  · intro hgood hend
    rw [h1]
    have := write_at_end file (toLE 8 e.m_NameHash
          ++ toLE 4 (if e.m_ToggleCompressed then e.m_FileSize ||| 2 ^ 30 else e.m_FileSize)
          ++ toLE 4 e.m_DataOffsetWrite) hgood hend
    simpa [toLE_length] using this
  · intro hsz
    rw [fromLE_toLE]
    apply Nat.mod_eq_of_lt
    split
    · exact Nat.or_lt_two_pow hsz (by decide)
    · exact hsz

/-- C8, witness: a compressed entry of 9 bytes written at offset 77, its header
appended to a stream of two bytes. -/
theorem C8_writeHeader_fields_witness :
    (File.writeHeader
        { File.fromMetadata (fun s => s.length) [97] none 9 0 20 [] [] with
          m_DataOffsetWrite := 77 }
        { data := [1, 2], pos := 2, fail := false, exc := false }).2.data
      = [1, 2] ++ (toLE 8 1 ++ toLE 4 (9 ||| 2 ^ 30) ++ toLE 4 77) :=
  ((C8_writeHeader_fields
      { File.fromMetadata (fun s => s.length) [97] none 9 0 20 [] [] with
        m_DataOffsetWrite := 77 }
      { data := [1, 2], pos := 2, fail := false, exc := false }).2.2.2.1 rfl rfl).1

/-- C10. On a readable stream the parsing constructor fails, with
`MalformedRecord`, exactly when fewer bytes than the record needs (hash width + 4
+ 4) are left from the position of the stream. Otherwise it succeeds, the stream
has advanced by exactly that many bytes, the name hash is read from the first 8
bytes, the size-and-flags word from the next 4, the data offset from the last 4,
and the name is empty. -/
theorem C10_fromStream_fails_iff (file : FStream) (folder : Option Folder)
    (hgood : file.fail = false) :
    (File.fromStream file folder = Except.error Fault.MalformedRecord
      ↔ file.remaining.length < sizeofBSAHash + sizeofBSAULong + sizeofBSAULong) ∧
    (∀ f, File.fromStream file folder = Except.error f → f = Fault.MalformedRecord) ∧
    (sizeofBSAHash + sizeofBSAULong + sizeofBSAULong ≤ file.remaining.length →
      ∃ e, File.fromStream file folder
          = Except.ok (e, { file with
              pos := file.pos + (sizeofBSAHash + sizeofBSAULong + sizeofBSAULong) }) ∧
        e.m_NameHash = fromLE (file.remaining.take 8) ∧
        e.m_FileSize = fromLE ((file.remaining.drop 8).take 4) &&& SIZEMASK ∧
        e.m_ToggleCompressed
          = decide (fromLE ((file.remaining.drop 8).take 4) &&& COMPRESSMASK ≠ 0) ∧
        e.m_DataOffset = fromLE ((file.remaining.drop 12).take 4) ∧
        e.m_Name = []) := by
  have hsum : sizeofBSAHash + sizeofBSAULong + sizeofBSAULong = 16 := rfl
  rw [hsum]
  have hok : 16 ≤ file.remaining.length →
      File.fromStream file folder
        = Except.ok (recordEntry file.remaining folder, { file with pos := file.pos + 16 }) :=
    fromStream_ok file folder hgood
  have herr : file.remaining.length < 16 →
      File.fromStream file folder = Except.error Fault.MalformedRecord :=
    fun h => fromStream_error file folder (Or.inr h)
  refine ⟨⟨?_, herr⟩, ?_, ?_⟩
  · intro h
    by_contra hn
    rw [hok (by omega)] at h
    cases h
  · intro f hf
    by_cases hl : file.remaining.length < 16
    · rw [herr hl] at hf
      cases hf
      rfl
    · rw [hok (by omega)] at hf
      cases hf
  · intro hl
    exact ⟨recordEntry file.remaining folder, hok hl, rfl, rfl, rfl, rfl, rfl⟩

/-- C10, witness: a stream of 17 bytes positioned at byte 1 holds a whole record;
positioned at byte 2 it does not. -/
theorem C10_fromStream_fails_iff_witness :
    (File.fromStream { data := 9 :: recordBytes 5 9 77, pos := 1, fail := false, exc := false }
        none = Except.error Fault.MalformedRecord
      ↔ (FStream.remaining
          { data := 9 :: recordBytes 5 9 77, pos := 1, fail := false, exc := false }).length
          < sizeofBSAHash + sizeofBSAULong + sizeofBSAULong) ∧
    (File.fromStream { data := 9 :: recordBytes 5 9 77, pos := 2, fail := false, exc := false }
        none = Except.error Fault.MalformedRecord
      ↔ (FStream.remaining
          { data := 9 :: recordBytes 5 9 77, pos := 2, fail := false, exc := false }).length
          < sizeofBSAHash + sizeofBSAULong + sizeofBSAULong) :=
  ⟨(C10_fromStream_fails_iff
      { data := 9 :: recordBytes 5 9 77, pos := 1, fail := false, exc := false } none rfl).1,
   (C10_fromStream_fails_iff
      { data := 9 :: recordBytes 5 9 77, pos := 2, fail := false, exc := false } none rfl).1⟩

/-! ## The copy loop -/

theorem bufBytes_bufStore (buf : Nat → Byte) (got : List Byte) :
    bufBytes (bufStore buf got) got.length = got := by
  apply List.ext_getElem
  · simp [bufBytes]
  · intro i h1 h2
    simp [bufBytes, bufStore, List.getD_eq_getElem?_getD, List.getElem?_eq_getElem h2]

theorem FStream.read_of_le (s : FStream) (buf : Nat → Byte) (n : Nat) (hgood : s.fail = false)
    (hlen : n ≤ s.remaining.length) :
    s.read buf n
      = (false, { s with pos := s.pos + n }, bufStore buf (s.remaining.take n)) := by
  simp only [FStream.read, readBytes_of_le s n hgood hlen, hgood, Bool.and_false]

theorem FStream.pos_add_zero (s : FStream) : { s with pos := s.pos + 0 } = s := by
  cases s; rfl

theorem copyLoop_exact (fuel : Nat) :
    ∀ (sizeLeft : Nat) (source target : FStream) (inBuffer : Nat → Byte),
      sizeLeft ≤ fuel → source.fail = false → sizeLeft ≤ source.remaining.length →
      copyLoop fuel sizeLeft source target inBuffer
        = (false, { source with pos := source.pos + sizeLeft },
            target.write (source.remaining.take sizeLeft)) := by
  induction fuel with
  | zero =>
    intro sizeLeft source target inBuffer hfuel _ _
    have h0 : sizeLeft = 0 := Nat.le_zero.mp hfuel
    subst h0
    simp [copyLoop, write_nil, FStream.pos_add_zero]
  | succ fuel ih =>
    intro sizeLeft source target inBuffer hfuel hgood hlen
    by_cases h0 : sizeLeft = 0
    · subst h0
      simp [copyLoop, write_nil, FStream.pos_add_zero]
    · have hpos : sizeLeft > 0 := Nat.pos_of_ne_zero h0
      have hchunk : 0 < CHUNK_SIZE := by decide
      have hc1 : min sizeLeft CHUNK_SIZE ≤ sizeLeft := Nat.min_le_left _ _
      have hc0 : 0 < min sizeLeft CHUNK_SIZE := Nat.lt_min.mpr ⟨hpos, hchunk⟩
      have hread := FStream.read_of_le source inBuffer (min sizeLeft CHUNK_SIZE) hgood
        (Nat.le_trans hc1 hlen)
      have hgot : (source.remaining.take (min sizeLeft CHUNK_SIZE)).length
          = min sizeLeft CHUNK_SIZE := by
        rw [List.length_take]; exact Nat.min_eq_left (Nat.le_trans hc1 hlen)
      have hbytes : bufBytes (bufStore inBuffer (source.remaining.take (min sizeLeft CHUNK_SIZE)))
          (min sizeLeft CHUNK_SIZE) = source.remaining.take (min sizeLeft CHUNK_SIZE) := by
        have := bufBytes_bufStore inBuffer (source.remaining.take (min sizeLeft CHUNK_SIZE))
        rwa [hgot] at this
      have hrec := ih (sizeLeft - min sizeLeft CHUNK_SIZE)
        { source with pos := source.pos + min sizeLeft CHUNK_SIZE }
        (target.write (source.remaining.take (min sizeLeft CHUNK_SIZE)))
        (bufStore inBuffer (source.remaining.take (min sizeLeft CHUNK_SIZE)))
        (by omega) hgood
        (by rw [remaining_advance, List.length_drop]; omega)
      have htake : source.remaining.take (min sizeLeft CHUNK_SIZE)
          ++ (source.remaining.drop (min sizeLeft CHUNK_SIZE)).take
              (sizeLeft - min sizeLeft CHUNK_SIZE)
          = source.remaining.take sizeLeft := by
        have hsum : sizeLeft = min sizeLeft CHUNK_SIZE + (sizeLeft - min sizeLeft CHUNK_SIZE) := by
          omega
        conv_rhs => rw [hsum]
        rw [List.take_add]
      have hposeq : source.pos + min sizeLeft CHUNK_SIZE + (sizeLeft - min sizeLeft CHUNK_SIZE)
          = source.pos + sizeLeft := by omega
      rw [copyLoop]
      simp only [hpos, if_true, hread, Bool.false_eq_true, if_false, hbytes]
      rw [hrec, remaining_advance, write_write, htake]
      simp only [hposeq]

/-- The bound on the iterations is never what ends the loop: any two bounds of at
least `sizeLeft` give the same result, so `copyLoop sizeLeft sizeLeft` is the
`while` loop run to its end. -/
theorem copyLoop_fuel (fuel1 : Nat) :
    ∀ (fuel2 sizeLeft : Nat) (source target : FStream) (inBuffer : Nat → Byte),
      sizeLeft ≤ fuel1 → sizeLeft ≤ fuel2 →
      copyLoop fuel1 sizeLeft source target inBuffer
        = copyLoop fuel2 sizeLeft source target inBuffer := by
  induction fuel1 with
  | zero =>
    intro fuel2 sizeLeft source target inBuffer h1 _
    have h0 : sizeLeft = 0 := Nat.le_zero.mp h1
    subst h0
    cases fuel2 <;> simp [copyLoop]
  | succ fuel1 ih =>
    intro fuel2 sizeLeft source target inBuffer h1 h2
    cases fuel2 with
    | zero =>
      have h0 : sizeLeft = 0 := Nat.le_zero.mp h2
      subst h0
      simp [copyLoop]
    | succ fuel2 =>
      by_cases h0 : sizeLeft = 0
      · subst h0
        simp [copyLoop]
      · have hpos : sizeLeft > 0 := Nat.pos_of_ne_zero h0
        have hchunk : 0 < CHUNK_SIZE := by decide
        have hc0 : 0 < min sizeLeft CHUNK_SIZE := Nat.lt_min.mpr ⟨hpos, hchunk⟩
        rw [copyLoop, copyLoop]
        simp only [hpos, if_true]
        split
        · rfl
        · exact ih fuel2 _ _ _ _ (by omega) (by omega)

theorem castBSAULong_tell (s : FStream) (hgood : s.fail = false) :
    castBSAULong s.tell = s.pos % 2 ^ 32 := by
  simp only [castBSAULong, FStream.tell, hgood, Bool.false_eq_true, if_false]
  omega

theorem seekgThrows_of_good (s : FStream) (hgood : s.fail = false) :
    s.seekgThrows = false := by
  simp [FStream.seekgThrows, hgood]

theorem writeData_archive (disk : List Byte → Option (List Byte)) (mem : Nat → Byte)
    (e : File) (source target : FStream)
    (hpath : e.m_SourceFile = [])
    (hs : source.fail = false)
    (hlen : e.m_DataOffset + e.m_FileSize ≤ source.data.length) :
    e.writeData disk mem source target
      = { result := EErrorCode.ERROR_NONE
          threw := false
          self := { e with m_DataOffsetWrite := castBSAULong target.tell }
          sourceArchive := { source with pos := e.m_DataOffset + e.m_FileSize }
          targetArchive := target.write ((source.data.drop e.m_DataOffset).take e.m_FileSize) } := by
  have hseek : source.seekg e.m_DataOffset = { source with pos := e.m_DataOffset } := by
    simp [FStream.seekg, hs]
  have hloop := copyLoop_exact e.m_FileSize e.m_FileSize { source with pos := e.m_DataOffset }
    target mem (Nat.le_refl _) hs
    (by simp only [FStream.remaining, List.length_drop]; omega)
  simp only [File.writeData, hpath, List.length_nil, if_true, seekgThrows_of_good source hs,
    hseek, hloop, Bool.false_eq_true, if_false, FStream.remaining]

theorem writeData_loose (disk : List Byte → Option (List Byte)) (mem : Nat → Byte)
    (e : File) (source target : FStream) (content : List Byte)
    (hpath : e.m_SourceFile ≠ [])
    (hopen : disk e.m_SourceFile = some content) :
    e.writeData disk mem source target
      = { result := EErrorCode.ERROR_NONE
          threw := false
          self := { e with
            m_DataOffsetWrite := castBSAULong target.tell
            m_FileSize := content.length % 2 ^ 32 }
          sourceArchive := source
          targetArchive := target.write (content.take (content.length % 2 ^ 32)) } := by
  have hne : ¬ (e.m_SourceFile.length = 0) := by
    intro h; exact hpath (List.length_eq_zero.mp h)
  have hsize : castBSAULong
      (FStream.seekEnd { data := content, pos := 0, fail := false, exc := false }).tell
      = content.length % 2 ^ 32 := by
    rw [castBSAULong_tell _ (by simp [FStream.seekEnd])]
    simp [FStream.seekEnd]
  have hseek : (FStream.seekEnd { data := content, pos := 0, fail := false, exc := false }).seekg 0
      = { data := content, pos := 0, fail := false, exc := false } := by
    simp [FStream.seekEnd, FStream.seekg]
  have hloop := copyLoop_exact (content.length % 2 ^ 32) (content.length % 2 ^ 32)
    { data := content, pos := 0, fail := false, exc := false } target mem (Nat.le_refl _) rfl
    (by simp only [FStream.remaining, List.drop_zero]; exact Nat.mod_le _ _)
  simp only [File.writeData, hne, if_false, hopen, hsize, hseek, hloop, FStream.remaining,
    List.drop_zero]

theorem writeData_loose_wrapped (disk : List Byte → Option (List Byte)) (mem : Nat → Byte)
    (e : File) (source target : FStream) (content : List Byte)
    (hpath : e.m_SourceFile ≠ [])
    (hopen : disk e.m_SourceFile = some content)
    (hL : content.length = 2 ^ 32) :
    (e.writeData disk mem source target).result = EErrorCode.ERROR_NONE ∧
    (e.writeData disk mem source target).self.m_FileSize = 0 ∧
    (e.writeData disk mem source target).targetArchive = target := by
  rw [writeData_loose disk mem e source target content hpath hopen, hL, Nat.mod_self,
    List.take_zero, write_nil]
  exact ⟨rfl, rfl, rfl⟩

/-! ## Claims about the payload transfer -/

/-- C3. For an entry without a loose source file, a readable source archive that
holds `m_DataOffset + m_FileSize` bytes and a writable target, `writeData`
returns `ERROR_NONE` and the chunked loop leaves the target as one un-chunked
write of the source bytes at positions `m_DataOffset` to
`m_DataOffset + m_FileSize` does: these are `m_FileSize` bytes, the target
position advances by `m_FileSize`, and on a target positioned at its end they
are appended, so the target grows by exactly `m_FileSize` bytes. -/
theorem C3_archive_copy_exact (disk : List Byte → Option (List Byte)) (mem : Nat → Byte)
    (e : File) (sourceArchive targetArchive : FStream)
    (hpath : e.m_SourceFile = [])
    (hs : sourceArchive.fail = false)
    (ht : targetArchive.fail = false)
    (hlen : e.m_DataOffset + e.m_FileSize ≤ sourceArchive.data.length) :
    (e.writeData disk mem sourceArchive targetArchive).result = EErrorCode.ERROR_NONE ∧
    (e.writeData disk mem sourceArchive targetArchive).threw = false ∧
    (e.writeData disk mem sourceArchive targetArchive).targetArchive
      = unchunkedCopy sourceArchive e.m_DataOffset e.m_FileSize targetArchive ∧
    (e.writeData disk mem sourceArchive targetArchive).targetArchive
      = targetArchive.write ((sourceArchive.data.drop e.m_DataOffset).take e.m_FileSize) ∧
    ((sourceArchive.data.drop e.m_DataOffset).take e.m_FileSize).length = e.m_FileSize ∧
    (e.writeData disk mem sourceArchive targetArchive).targetArchive.pos
      = targetArchive.pos + e.m_FileSize ∧
    (targetArchive.pos = targetArchive.data.length →
      (e.writeData disk mem sourceArchive targetArchive).targetArchive.data
        = targetArchive.data ++ (sourceArchive.data.drop e.m_DataOffset).take e.m_FileSize ∧
      (e.writeData disk mem sourceArchive targetArchive).targetArchive.data.length
        = targetArchive.data.length + e.m_FileSize) := by
  have hslice : ((sourceArchive.data.drop e.m_DataOffset).take e.m_FileSize).length
      = e.m_FileSize := by
    rw [List.length_take, List.length_drop]; omega
  rw [writeData_archive disk mem e sourceArchive targetArchive hpath hs hlen]
  refine ⟨rfl, rfl, rfl, rfl, hslice, ?_, ?_⟩
  · simp only
    by_cases hb : (sourceArchive.data.drop e.m_DataOffset).take e.m_FileSize = []
    · rw [hb] at hslice
      rw [hb, write_nil, ← hslice]
      rfl
    · simp only [FStream.write, ht, Bool.false_eq_true, if_false, hslice]
  · intro hend
    have h := write_at_end targetArchive
      ((sourceArchive.data.drop e.m_DataOffset).take e.m_FileSize) ht hend
    refine ⟨h.1, ?_⟩
    simp only
    rw [h.1, List.length_append, hslice]

/-- C3, witness: three bytes at offset 1 of a five-byte archive are appended to a
target of two bytes. -/
theorem C3_archive_copy_exact_witness :
    (File.writeData (fun _ => none) (fun _ => 0)
        (File.fromMetadata (fun s => s.length) [97] none 3 1 0 [] [])
        { data := [10, 11, 12, 13, 14], pos := 0, fail := false, exc := false }
        { data := [1, 2], pos := 2, fail := false, exc := false }).result
      = EErrorCode.ERROR_NONE ∧
    (File.writeData (fun _ => none) (fun _ => 0)
        (File.fromMetadata (fun s => s.length) [97] none 3 1 0 [] [])
        { data := [10, 11, 12, 13, 14], pos := 0, fail := false, exc := false }
        { data := [1, 2], pos := 2, fail := false, exc := false }).targetArchive.data
      = [1, 2] ++ [11, 12, 13] := by
  have h := C3_archive_copy_exact (fun _ => none) (fun _ => 0)
    (File.fromMetadata (fun s => s.length) [97] none 3 1 0 [] [])
    { data := [10, 11, 12, 13, 14], pos := 0, fail := false, exc := false }
    { data := [1, 2], pos := 2, fail := false, exc := false } rfl rfl rfl (by decide)
  exact ⟨h.1, (h.2.2.2.2.2.2 rfl).1⟩

/-- C4, amended. For an entry whose loose source file can be opened and has
`L < 2 ^ 32` bytes, and a writable target, `writeData` returns `ERROR_NONE`,
sets `m_FileSize` to `L`, writes exactly the `L` bytes of the file to the target
(appended, on a target positioned at its end), and the target has advanced
exactly `L` bytes from its position at the call, which `m_DataOffsetWrite` holds
as a 32-bit value. -/
theorem C4_loose_file_copy (disk : List Byte → Option (List Byte)) (mem : Nat → Byte)
    (e : File) (sourceArchive targetArchive : FStream) (content : List Byte)
    (hpath : e.m_SourceFile ≠ [])
    (hopen : disk e.m_SourceFile = some content)
    (hL : content.length < 2 ^ 32)
    (ht : targetArchive.fail = false) :
    (e.writeData disk mem sourceArchive targetArchive).result = EErrorCode.ERROR_NONE ∧
    (e.writeData disk mem sourceArchive targetArchive).threw = false ∧
    (e.writeData disk mem sourceArchive targetArchive).self.m_FileSize = content.length ∧
    (e.writeData disk mem sourceArchive targetArchive).targetArchive
      = targetArchive.write content ∧
    (e.writeData disk mem sourceArchive targetArchive).targetArchive.pos
      = targetArchive.pos + content.length ∧
    (e.writeData disk mem sourceArchive targetArchive).self.m_DataOffsetWrite
      = targetArchive.pos % 2 ^ 32 ∧
    (targetArchive.pos = targetArchive.data.length →
      (e.writeData disk mem sourceArchive targetArchive).targetArchive.data
        = targetArchive.data ++ content) := by
  have hmod : content.length % 2 ^ 32 = content.length := Nat.mod_eq_of_lt hL
  rw [writeData_loose disk mem e sourceArchive targetArchive content hpath hopen, hmod,
    List.take_length]
  refine ⟨rfl, rfl, rfl, rfl, ?_, castBSAULong_tell targetArchive ht, ?_⟩
  · simp only
    by_cases hb : content = []
    · subst hb; rw [write_nil]; rfl
    · simp only [FStream.write, ht, Bool.false_eq_true, if_false]
  · intro hend
    exact (write_at_end targetArchive content ht hend).1

/-- C4, witness: a loose file of three bytes is appended to a target of two bytes. -/
theorem C4_loose_file_copy_witness :
    (File.writeData (fun _ => some [7, 8, 9]) (fun _ => 0)
        (File.fromLooseFile (fun s => s.length) [97] [98] none false)
        { data := [], pos := 0, fail := false, exc := false }
        { data := [1, 2], pos := 2, fail := false, exc := false }).self.m_FileSize = 3 ∧
    (File.writeData (fun _ => some [7, 8, 9]) (fun _ => 0)
        (File.fromLooseFile (fun s => s.length) [97] [98] none false)
        { data := [], pos := 0, fail := false, exc := false }
        { data := [1, 2], pos := 2, fail := false, exc := false }).targetArchive.data
      = [1, 2] ++ [7, 8, 9] := by
  have h := C4_loose_file_copy (fun _ => some [7, 8, 9]) (fun _ => 0)
    (File.fromLooseFile (fun s => s.length) [97] [98] none false)
    { data := [], pos := 0, fail := false, exc := false }
    { data := [1, 2], pos := 2, fail := false, exc := false } [7, 8, 9]
    (by decide) rfl (by decide) rfl
  exact ⟨h.2.2.1, h.2.2.2.2.2.2 rfl⟩

/-- C4, counterexample: for a loose file of `2 ^ 32` bytes `writeData` returns
`ERROR_NONE`, `m_FileSize` is 0, not `2 ^ 32`, and the target is as it was: no
byte of the file reaches it. -/
theorem C4_counterexample :
    (List.replicate (2 ^ 32) (0 : Byte)).length = 2 ^ 32 ∧
    (File.writeData (fun _ => some (List.replicate (2 ^ 32) 0)) (fun _ => 0)
        (File.fromLooseFile (fun s => s.length) [97] [98] none false)
        { data := [], pos := 0, fail := false, exc := false }
        { data := [], pos := 0, fail := false, exc := false }).result
      = EErrorCode.ERROR_NONE ∧
    (File.writeData (fun _ => some (List.replicate (2 ^ 32) 0)) (fun _ => 0)
        (File.fromLooseFile (fun s => s.length) [97] [98] none false)
        { data := [], pos := 0, fail := false, exc := false }
        { data := [], pos := 0, fail := false, exc := false }).self.m_FileSize = 0 ∧
    (File.writeData (fun _ => some (List.replicate (2 ^ 32) 0)) (fun _ => 0)
        (File.fromLooseFile (fun s => s.length) [97] [98] none false)
        { data := [], pos := 0, fail := false, exc := false }
        { data := [], pos := 0, fail := false, exc := false }).targetArchive
      = { data := [], pos := 0, fail := false, exc := false } :=
  ⟨List.length_replicate _ _,
   writeData_loose_wrapped (fun _ => some (List.replicate (2 ^ 32) 0)) (fun _ => 0)
    (File.fromLooseFile (fun s => s.length) [97] [98] none false)
    { data := [], pos := 0, fail := false, exc := false }
    { data := [], pos := 0, fail := false, exc := false } (List.replicate (2 ^ 32) 0)
    (by decide) rfl (List.length_replicate _ _)⟩

/-- C7. When the loose source file of an entry cannot be opened, `writeData`
returns `ERROR_SOURCEFILEMISSING` and leaves the target stream as it was: no byte
written, position unchanged. The source archive is untouched; of the entry only
`m_DataOffsetWrite` has been assigned. -/
theorem C7_missing_source_file (disk : List Byte → Option (List Byte)) (mem : Nat → Byte)
    (e : File) (sourceArchive targetArchive : FStream)
    (hpath : e.m_SourceFile ≠ [])
    (hmissing : disk e.m_SourceFile = none) :
    (e.writeData disk mem sourceArchive targetArchive).result
      = EErrorCode.ERROR_SOURCEFILEMISSING ∧
    (e.writeData disk mem sourceArchive targetArchive).threw = false ∧
    (e.writeData disk mem sourceArchive targetArchive).targetArchive = targetArchive ∧
    (e.writeData disk mem sourceArchive targetArchive).targetArchive.data = targetArchive.data ∧
    (e.writeData disk mem sourceArchive targetArchive).targetArchive.pos = targetArchive.pos ∧
    (e.writeData disk mem sourceArchive targetArchive).sourceArchive = sourceArchive ∧
    (e.writeData disk mem sourceArchive targetArchive).self
      = { e with m_DataOffsetWrite := castBSAULong targetArchive.tell } := by
  have hne : ¬ (e.m_SourceFile.length = 0) := by
    intro h; exact hpath (List.length_eq_zero.mp h)
  have h : e.writeData disk mem sourceArchive targetArchive
      = { result := EErrorCode.ERROR_SOURCEFILEMISSING
          threw := false
          self := { e with m_DataOffsetWrite := castBSAULong targetArchive.tell }
          sourceArchive := sourceArchive
          targetArchive := targetArchive } := by
    simp only [File.writeData, hne, if_false, hmissing]
  rw [h]
  exact ⟨rfl, rfl, rfl, rfl, rfl, rfl, rfl⟩

/-- C7, witness: no loose file can be opened; the target of two bytes stays as it
is. -/
theorem C7_missing_source_file_witness :
    (File.writeData (fun _ => none) (fun _ => 0)
        (File.fromLooseFile (fun s => s.length) [97] [98] none false)
        { data := [], pos := 0, fail := false, exc := false }
        { data := [1, 2], pos := 2, fail := false, exc := false }).result
      = EErrorCode.ERROR_SOURCEFILEMISSING ∧
    (File.writeData (fun _ => none) (fun _ => 0)
        (File.fromLooseFile (fun s => s.length) [97] [98] none false)
        { data := [], pos := 0, fail := false, exc := false }
        { data := [1, 2], pos := 2, fail := false, exc := false }).targetArchive
      = { data := [1, 2], pos := 2, fail := false, exc := false } := by
  have h := C7_missing_source_file (fun _ => none) (fun _ => 0)
    (File.fromLooseFile (fun s => s.length) [97] [98] none false)
    { data := [], pos := 0, fail := false, exc := false }
    { data := [1, 2], pos := 2, fail := false, exc := false } (by decide) rfl
  exact ⟨h.1, h.2.2.1⟩

/-! ## Claims about names and hashes -/

theorem takeWhile_terminated (S rest : List Byte) (hS : ∀ b ∈ S, b ≠ 0) :
    (S ++ 0 :: rest).takeWhile (fun b => decide (b ≠ 0)) = S := by
  induction S with
  | nil => simp [List.takeWhile]
  | cons b S ih =>
    have hb : b ≠ 0 := hS b (List.mem_cons_self b S)
    have hS' : ∀ c ∈ S, c ≠ 0 := fun c hc => hS c (List.mem_cons_of_mem b hc)
    have hd : decide (b ≠ 0) = true := decide_eq_true hb
    rw [List.cons_append, List.takeWhile_cons]
    simp only [hd, if_true]
    rw [ih hS']

theorem readZString_terminated (file : FStream) (S rest : List Byte)
    (hgood : file.fail = false)
    (hrem : file.remaining = S ++ 0 :: rest)
    (hS : ∀ b ∈ S, b ≠ 0) :
    readZString file = (S, { file with pos := file.pos + S.length + 1 }) := by
  have hrem' : file.data.drop file.pos = S ++ 0 :: rest := hrem
  have hlt : S.length < (S ++ 0 :: rest).length := by simp
  simp only [readZString, hgood, Bool.false_eq_true, if_false, hrem',
    takeWhile_terminated S rest hS, hlt, if_true]

theorem readFileName_terminated (calculateBSAHash : List Byte → Nat) (e : File)
    (file : FStream) (testHashes : Bool) (S rest : List Byte)
    (hgood : file.fail = false)
    (hrem : file.remaining = S ++ 0 :: rest)
    (hS : ∀ b ∈ S, b ≠ 0) :
    e.readFileName calculateBSAHash file testHashes
      = ({ e with m_Name := S }, { file with pos := file.pos + S.length + 1 },
          if testHashes = true ∧ calculateBSAHash S ≠ e.m_NameHash
          then some (Fault.data_invalid_exception S (calculateBSAHash S) e.m_NameHash)
          else none) := by
  simp only [File.readFileName, readZString_terminated file S rest hgood hrem hS]
  cases testHashes
  · simp
  · by_cases h : calculateBSAHash S = e.m_NameHash
    · simp [h]
    · simp [h]

/-- C6. For an entry and a readable stream positioned at a name `S` followed by
its terminating zero byte, `readFileName` ends with the `data_invalid_exception`
(carrying `S`, its hash and the stored hash) if and only if `testHashes` is set and
`calculateBSAHash(S)` differs from `m_NameHash`; it raises nothing else. In every
case, so whenever it does not fail and always when `testHashes` is false,
`m_Name` is `S`, no other member of the entry has changed (`m_NameHash` among
them), and the stream is behind the zero byte. -/
theorem C6_readFileName_iff (calculateBSAHash : List Byte → Nat) (e : File)
    (file : FStream) (testHashes : Bool) (S rest : List Byte)
    (hgood : file.fail = false)
    (hrem : file.remaining = S ++ 0 :: rest)
    (hS : ∀ b ∈ S, b ≠ 0) :
    ((e.readFileName calculateBSAHash file testHashes).2.2
        = some (Fault.data_invalid_exception S (calculateBSAHash S) e.m_NameHash)
      ↔ testHashes = true ∧ calculateBSAHash S ≠ e.m_NameHash) ∧
    ((e.readFileName calculateBSAHash file testHashes).2.2 = none
      ↔ ¬ (testHashes = true ∧ calculateBSAHash S ≠ e.m_NameHash)) ∧
    (testHashes = false → (e.readFileName calculateBSAHash file testHashes).2.2 = none) ∧
    (e.readFileName calculateBSAHash file testHashes).1 = { e with m_Name := S } ∧
    (e.readFileName calculateBSAHash file testHashes).1.m_Name = S ∧
    (e.readFileName calculateBSAHash file testHashes).1.m_NameHash = e.m_NameHash ∧
    (e.readFileName calculateBSAHash file testHashes).2.1
      = { file with pos := file.pos + S.length + 1 } := by
  rw [readFileName_terminated calculateBSAHash e file testHashes S rest hgood hrem hS]
  refine ⟨?_, ?_, ?_, rfl, rfl, rfl, rfl⟩
  · by_cases h : testHashes = true ∧ calculateBSAHash S ≠ e.m_NameHash
    · rw [if_pos h]
      exact ⟨fun _ => h, fun _ => rfl⟩
    · rw [if_neg h]
      exact ⟨fun hc => (by cases hc), fun hc => absurd hc h⟩
  · by_cases h : testHashes = true ∧ calculateBSAHash S ≠ e.m_NameHash
    · rw [if_pos h]
      exact ⟨fun hc => (by cases hc), fun hc => absurd h hc⟩
    · rw [if_neg h]
      exact ⟨fun _ => h, fun _ => rfl⟩
  · intro hf
    simp only [hf, Bool.false_eq_true, false_and, if_false]

/-- C6, witness: with the length as hash, an entry with stored hash 1 reads the
name `ab` from the bytes `a b 0 c`; with verification the hashes 2 and 1 differ. -/
theorem C6_readFileName_iff_witness :
    ((File.readFileName (fun s => s.length)
          (File.fromLooseFile (fun s => s.length) [120] [98] none false)
          { data := [97, 98, 0, 99], pos := 0, fail := false, exc := false } true).2.2
        = some (Fault.data_invalid_exception [97, 98] 2 1)) ∧
    ((File.readFileName (fun s => s.length)
          (File.fromLooseFile (fun s => s.length) [120] [98] none false)
          { data := [97, 98, 0, 99], pos := 0, fail := false, exc := false } false).2.2
        = none) ∧
    (File.readFileName (fun s => s.length)
          (File.fromLooseFile (fun s => s.length) [120] [98] none false)
          { data := [97, 98, 0, 99], pos := 0, fail := false, exc := false } false).1.m_Name
        = [97, 98] :=
  ⟨(C6_readFileName_iff (fun s => s.length)
      (File.fromLooseFile (fun s => s.length) [120] [98] none false)
      { data := [97, 98, 0, 99], pos := 0, fail := false, exc := false } true [97, 98] [99]
      rfl rfl (by simp)).1.mpr ⟨rfl, by decide⟩,
   (C6_readFileName_iff (fun s => s.length)
      (File.fromLooseFile (fun s => s.length) [120] [98] none false)
      { data := [97, 98, 0, 99], pos := 0, fail := false, exc := false } false [97, 98] [99]
      rfl rfl (by simp)).2.2.1 rfl,
   (C6_readFileName_iff (fun s => s.length)
      (File.fromLooseFile (fun s => s.length) [120] [98] none false)
      { data := [97, 98, 0, 99], pos := 0, fail := false, exc := false } false [97, 98] [99]
      rfl rfl (by simp)).2.2.2.2.1⟩

/-- C9. The metadata constructor yields an entry whose `m_ToggleCompressed` is
true if and only if `fileSize > 0` and `uncompressedFileSize > 0` (true for 100
and 50, false for 100 and 0), whose `m_NameHash` is `calculateBSAHash(name)`, and
whose `m_New` is false. -/
theorem C9_fromMetadata (calculateBSAHash : List Byte → Nat) (name : List Byte)
    (folder : Option Folder) (fileSize dataOffset uncompressedFileSize : Nat)
    (header : FO4TextureHeader) (texChunks : List FO4TextureChunk) :
    ((File.fromMetadata calculateBSAHash name folder fileSize dataOffset uncompressedFileSize
        header texChunks).m_ToggleCompressed = true
      ↔ fileSize > 0 ∧ uncompressedFileSize > 0) ∧
    (File.fromMetadata calculateBSAHash name folder 100 dataOffset 50
        header texChunks).m_ToggleCompressed = true ∧
    (File.fromMetadata calculateBSAHash name folder 100 dataOffset 0
        header texChunks).m_ToggleCompressed = false ∧
    (File.fromMetadata calculateBSAHash name folder fileSize dataOffset uncompressedFileSize
        header texChunks).m_NameHash = calculateBSAHash name ∧
    (File.fromMetadata calculateBSAHash name folder fileSize dataOffset uncompressedFileSize
        header texChunks).m_New = false := by
  refine ⟨?_, rfl, rfl, rfl, rfl⟩
  simp only [File.fromMetadata]
  by_cases h : fileSize > 0 ∧ uncompressedFileSize > 0
  · simp only [h, and_self, if_true]
  · simp only [h, if_false, Bool.false_eq_true]

/-- C5, amended. Let an entry be constructed from a name `N` by the metadata or
the loose-file constructor, so that `m_NameHash = calculateBSAHash(N)`. Reading
back a name-table entry containing `N` with verification on succeeds and leaves
`m_Name = N`. Reading back one containing a name `N'` with verification on fails
with the `data_invalid_exception` if and only if
`calculateBSAHash(N') != calculateBSAHash(N)`; when the two hashes are equal it
succeeds and leaves `m_Name = N'`. -/
theorem C5_hash_verification (calculateBSAHash : List Byte → Nat) (e : File)
    (N N' sourceFile rest rest' : List Byte) (folder : Option Folder) (toggleCompressed : Bool)
    (fileSize dataOffset uncompressedFileSize : Nat)
    (header : FO4TextureHeader) (texChunks : List FO4TextureChunk)
    (file file' : FStream)
    (he : e = File.fromLooseFile calculateBSAHash N sourceFile folder toggleCompressed
      ∨ e = File.fromMetadata calculateBSAHash N folder fileSize dataOffset
          uncompressedFileSize header texChunks)
    (hN : ∀ b ∈ N, b ≠ 0) (hN' : ∀ b ∈ N', b ≠ 0)
    (hgood : file.fail = false) (hrem : file.remaining = N ++ 0 :: rest)
    (hgood' : file'.fail = false) (hrem' : file'.remaining = N' ++ 0 :: rest') :
    e.m_NameHash = calculateBSAHash N ∧
    (e.readFileName calculateBSAHash file true).2.2 = none ∧
    (e.readFileName calculateBSAHash file true).1.m_Name = N ∧
    ((e.readFileName calculateBSAHash file' true).2.2
        = some (Fault.data_invalid_exception N' (calculateBSAHash N') (calculateBSAHash N))
      ↔ calculateBSAHash N' ≠ calculateBSAHash N) ∧
    ((e.readFileName calculateBSAHash file' true).2.2 = none
      ↔ calculateBSAHash N' = calculateBSAHash N) ∧
    (e.readFileName calculateBSAHash file' true).1.m_Name = N' := by
  have hh : e.m_NameHash = calculateBSAHash N := by
    rcases he with he | he <;> rw [he] <;> rfl
  rw [readFileName_terminated calculateBSAHash e file true N rest hgood hrem hN,
    readFileName_terminated calculateBSAHash e file' true N' rest' hgood' hrem' hN', hh]
  refine ⟨rfl, ?_, rfl, ?_, ?_, rfl⟩
  · simp
  · by_cases h : calculateBSAHash N' = calculateBSAHash N
    · simp [h]
    · simp [h]
  · by_cases h : calculateBSAHash N' = calculateBSAHash N
    · simp [h]
    · simp [h]

/-- C5, witness: with the length as hash, the entry constructed from `ab` reads
back `ab` without a fault, and fails on `abc`, whose hash is 3, not 2. -/
theorem C5_hash_verification_witness :
    (File.readFileName (fun s => s.length)
        (File.fromLooseFile (fun s => s.length) [97, 98] [120] none false)
        { data := [97, 98, 0], pos := 0, fail := false, exc := false } true).2.2 = none ∧
    (File.readFileName (fun s => s.length)
        (File.fromLooseFile (fun s => s.length) [97, 98] [120] none false)
        { data := [97, 98, 99, 0], pos := 0, fail := false, exc := false } true).2.2
      = some (Fault.data_invalid_exception [97, 98, 99] 3 2) := by
  have h := C5_hash_verification (fun s => s.length)
    (File.fromLooseFile (fun s => s.length) [97, 98] [120] none false)
    [97, 98] [97, 98, 99] [120] [] [] none false 0 0 0 [] []
    { data := [97, 98, 0], pos := 0, fail := false, exc := false }
    { data := [97, 98, 99, 0], pos := 0, fail := false, exc := false }
    (Or.inl rfl) (by simp) (by simp) rfl rfl rfl rfl
  exact ⟨h.2.1, h.2.2.2.1.mpr (by decide)⟩

/-- C5, counterexample: no hash function with 64-bit values makes the claim true.
Whatever `calculateBSAHash` is, there are two different names such that the entry
constructed from one reads back the other with verification on and does not
fail. -/
theorem C5_counterexample :
    ¬ ∃ calculateBSAHash : List Byte → Nat, (∀ s, calculateBSAHash s < 2 ^ 64) ∧
      ∀ N N' : List Byte, (∀ b ∈ N, b ≠ 0) → (∀ b ∈ N', b ≠ 0) → N' ≠ N →
        (File.readFileName calculateBSAHash
          (File.fromLooseFile calculateBSAHash N [120] none false)
          { data := N' ++ [0], pos := 0, fail := false, exc := false } true).2.2 ≠ none := by
  rintro ⟨hash, hbound, hall⟩
  obtain ⟨n, m, hne, heq⟩ := Finite.exists_ne_map_eq_of_infinite
    (fun k : Nat => (⟨hash (List.replicate k 1), hbound _⟩ : Fin (2 ^ 64)))
  have hhash : hash (List.replicate n 1) = hash (List.replicate m 1) := by
    simpa using congrArg Fin.val heq
  have hz : ∀ k : Nat, ∀ b ∈ List.replicate k (1 : Byte), b ≠ 0 := by
    intro k b hb
    rw [List.eq_of_mem_replicate hb]
    decide
  have hdiff : List.replicate n (1 : Byte) ≠ List.replicate m 1 := by
    intro h
    apply hne
    simpa using congrArg List.length h
  apply hall (List.replicate m 1) (List.replicate n 1) (hz m) (hz n) hdiff
  rw [readFileName_terminated hash _ _ true (List.replicate n 1) [] rfl
    (by simp [FStream.remaining]) (hz n)]
  have hh : (File.fromLooseFile hash (List.replicate m 1) [120] none false).m_NameHash
      = hash (List.replicate m 1) := rfl
  simp [hh, hhash]

/-! ## Claims about the write offset and the result code -/

theorem writeData_self_cases (disk : List Byte → Option (List Byte)) (mem : Nat → Byte)
    (e : File) (source target : FStream) :
    (e.m_SourceFile = [] ∧
      (e.writeData disk mem source target).self
        = { e with m_DataOffsetWrite := castBSAULong target.tell } ∧
      (e.writeData disk mem source target).threw = source.seekgThrows ∧
      (e.writeData disk mem source target).result ≠ EErrorCode.ERROR_SOURCEFILEMISSING) ∨
    (e.m_SourceFile ≠ [] ∧ disk e.m_SourceFile = none ∧
      (e.writeData disk mem source target).self
        = { e with m_DataOffsetWrite := castBSAULong target.tell } ∧
      (e.writeData disk mem source target).result = EErrorCode.ERROR_SOURCEFILEMISSING) ∨
    (e.m_SourceFile ≠ [] ∧ ∃ content, disk e.m_SourceFile = some content ∧
      (e.writeData disk mem source target).self
        = { e with
            m_DataOffsetWrite := castBSAULong target.tell
            m_FileSize := content.length % 2 ^ 32 } ∧
      (e.writeData disk mem source target).result = EErrorCode.ERROR_NONE) := by
  by_cases hpath : e.m_SourceFile = []
  · left
    have h0 : e.m_SourceFile.length = 0 := by rw [hpath]; rfl
    refine ⟨hpath, ?_, ?_, ?_⟩
    · simp only [File.writeData, h0, if_true]
      split <;> rfl
    · simp only [File.writeData, h0, if_true]
      cases hthrows : source.seekgThrows
      · simp only [Bool.false_eq_true, if_false]
      · simp only [if_true]
    · simp only [File.writeData, h0, if_true]
      split
      · exact fun h => by cases h
      · split <;> exact fun h => by cases h
  · right
    have hne : ¬ (e.m_SourceFile.length = 0) := by
      intro h; exact hpath (List.length_eq_zero.mp h)
    cases hdisk : disk e.m_SourceFile with
    | none =>
      left
      refine ⟨hpath, rfl, ?_, ?_⟩
      · simp only [File.writeData, hne, if_false, hdisk]
      · simp only [File.writeData, hne, if_false, hdisk]
    | some content =>
      right
      refine ⟨hpath, content, rfl, ?_, ?_⟩
      · rw [writeData_loose disk mem e source target content hpath hdisk]
      · rw [writeData_loose disk mem e source target content hpath hdisk]

theorem writeData_self_writeOffset (disk : List Byte → Option (List Byte)) (mem : Nat → Byte)
    (e : File) (source target : FStream) :
    (e.writeData disk mem source target).self.m_DataOffsetWrite = castBSAULong target.tell := by
  rcases writeData_self_cases disk mem e source target with
    ⟨-, h, -, -⟩ | ⟨-, -, h, -⟩ | ⟨-, content, -, h, -⟩ <;> rw [h]

theorem writeData_writeOffset_wraps (disk : List Byte → Option (List Byte)) (mem : Nat → Byte)
    (e : File) (source target : FStream)
    (hgood : target.fail = false) (hp : target.pos = 2 ^ 32) :
    (e.writeData disk mem source target).self.m_DataOffsetWrite = 0 := by
  rw [writeData_self_writeOffset, castBSAULong_tell target hgood, hp, Nat.mod_self]

/-- C11, amended. On every path of `writeData` the entry's `m_DataOffsetWrite`
after the call is the result of `tellp()` on the target at the call, converted to
`BSAULong`: for a target that has not failed and whose position is `p`, it is
`p % 2 ^ 32`, so it equals `p` for every `p < 2 ^ 32`. -/
theorem C11_writeOffset_captured (disk : List Byte → Option (List Byte)) (mem : Nat → Byte)
    (e : File) (sourceArchive targetArchive : FStream) :
    (e.writeData disk mem sourceArchive targetArchive).self.m_DataOffsetWrite
      = castBSAULong targetArchive.tell ∧
    (targetArchive.fail = false →
      (e.writeData disk mem sourceArchive targetArchive).self.m_DataOffsetWrite
        = targetArchive.pos % 2 ^ 32) ∧
    (targetArchive.fail = false → targetArchive.pos < 2 ^ 32 →
      (e.writeData disk mem sourceArchive targetArchive).self.m_DataOffsetWrite
        = targetArchive.pos) := by
  have h := writeData_self_writeOffset disk mem e sourceArchive targetArchive
  refine ⟨h, ?_, ?_⟩
  · intro hgood
    rw [h, castBSAULong_tell targetArchive hgood]
  · intro hgood hp
    rw [h, castBSAULong_tell targetArchive hgood, Nat.mod_eq_of_lt hp]

/-- C11, witness: a target of two bytes positioned at its end gives write offset 2. -/
theorem C11_writeOffset_captured_witness :
    (File.writeData (fun _ => none) (fun _ => 0)
        (File.fromMetadata (fun s => s.length) [97] none 3 1 0 [] [])
        { data := [10, 11, 12, 13, 14], pos := 0, fail := false, exc := false }
        { data := [1, 2], pos := 2, fail := false, exc := false }).self.m_DataOffsetWrite = 2 :=
  (C11_writeOffset_captured (fun _ => none) (fun _ => 0)
    (File.fromMetadata (fun s => s.length) [97] none 3 1 0 [] [])
    { data := [10, 11, 12, 13, 14], pos := 0, fail := false, exc := false }
    { data := [1, 2], pos := 2, fail := false, exc := false }).2.2 rfl (by decide)

/-- C11, counterexample: a target archive of `2 ^ 32` bytes with its cursor at
the end reports position `2 ^ 32`; after `writeData` the write offset of the
entry is 0. -/
theorem C11_counterexample :
    FStream.tell
        { data := List.replicate (2 ^ 32) 0, pos := 2 ^ 32, fail := false, exc := false }
      = 2 ^ 32 ∧
    (File.writeData (fun _ => none) (fun _ => 0)
        (File.fromMetadata (fun s => s.length) [97] none 0 0 0 [] [])
        { data := [], pos := 0, fail := false, exc := false }
        { data := List.replicate (2 ^ 32) 0, pos := 2 ^ 32, fail := false, exc := false }
      ).self.m_DataOffsetWrite = 0 :=
  ⟨rfl,
   writeData_writeOffset_wraps (fun _ => none) (fun _ => 0)
    (File.fromMetadata (fun s => s.length) [97] none 0 0 0 [] [])
    { data := [], pos := 0, fail := false, exc := false }
    { data := List.replicate (2 ^ 32) 0, pos := 2 ^ 32, fail := false, exc := false }
    rfl rfl⟩

theorem readBytes_exc (s : FStream) (n : Nat) : (s.readBytes n).2.exc = s.exc := by
  unfold FStream.readBytes
  split <;> rfl

theorem copyLoop_no_throw (fuel : Nat) :
    ∀ (sizeLeft : Nat) (source target : FStream) (inBuffer : Nat → Byte),
      source.exc = false → (copyLoop fuel sizeLeft source target inBuffer).1 = false := by
  induction fuel with
  | zero => intro sizeLeft source target inBuffer _; rfl
  | succ fuel ih =>
    intro sizeLeft source target inBuffer hexc
    rw [copyLoop]
    split
    · have hr : (source.read inBuffer (min sizeLeft CHUNK_SIZE)).1 = false := by
        simp [FStream.read, hexc]
      simp only [hr, Bool.false_eq_true, if_false]
      apply ih
      simp only [FStream.read, readBytes_exc, hexc]
    · rfl

theorem copyLoop_throws (fuel : Nat) :
    ∀ (sizeLeft : Nat) (source target : FStream) (inBuffer : Nat → Byte),
      source.exc = true → (source.fail = true ∨ source.remaining.length < sizeLeft) →
      0 < sizeLeft → sizeLeft ≤ fuel →
      (copyLoop fuel sizeLeft source target inBuffer).1 = true := by
  induction fuel with
  | zero =>
    intro sizeLeft source target inBuffer _ _ hpos hfuel
    omega
  | succ fuel ih =>
    intro sizeLeft source target inBuffer hexc hshort hpos hfuel
    have hchunk : 0 < CHUNK_SIZE := by decide
    have hc1 : min sizeLeft CHUNK_SIZE ≤ sizeLeft := Nat.min_le_left _ _
    have hc0 : 0 < min sizeLeft CHUNK_SIZE := Nat.lt_min.mpr ⟨hpos, hchunk⟩
    rw [copyLoop]
    simp only [hpos, if_true]
    by_cases hfail : source.fail = true
    · have hr : (source.read inBuffer (min sizeLeft CHUNK_SIZE)).1 = true := by
        simp [FStream.read, FStream.readBytes, hfail, hexc]
      simp only [hr, if_true]
    · have hgood : source.fail = false := by
        cases h : source.fail
        · rfl
        · exact absurd h hfail
      have hlen : source.remaining.length < sizeLeft := by
        rcases hshort with h | h
        · exact absurd h hfail
        · exact h
      by_cases hc : min sizeLeft CHUNK_SIZE ≤ source.remaining.length
      · have hread := FStream.read_of_le source inBuffer (min sizeLeft CHUNK_SIZE) hgood hc
        simp only [hread, Bool.false_eq_true, if_false]
        apply ih
        · exact hexc
        · right
          rw [remaining_advance, List.length_drop]
          omega
        · omega
        · omega
      · have hlt : source.remaining.length < min sizeLeft CHUNK_SIZE := Nat.lt_of_not_le hc
        have hgot : ((source.data.drop source.pos).take (min sizeLeft CHUNK_SIZE)).length
            < min sizeLeft CHUNK_SIZE := by
          rw [List.length_take]
          exact Nat.lt_of_le_of_lt (Nat.min_le_right _ _) hlt
        have hr : (source.read inBuffer (min sizeLeft CHUNK_SIZE)).1 = true := by
          simp only [FStream.read, FStream.readBytes, hgood, Bool.false_eq_true, if_false, hexc,
            Bool.true_and, hgot, decide_True]
        simp only [hr, if_true]

theorem seekg_props (s : FStream) (off : Nat) :
    (s.seekg off).exc = s.exc ∧ (s.seekg off).fail = s.fail ∧
    (s.fail = false → (s.seekg off).remaining = s.data.drop off) := by
  unfold FStream.seekg
  split
  · rename_i h
    exact ⟨rfl, rfl, fun hh => by rw [hh] at h; cases h⟩
  · exact ⟨rfl, rfl, fun _ => rfl⟩

/-- The catch of line 118 at work: for an entry without a loose source file and a
source archive stream that has not failed and whose exception mask makes a
failed read throw, a source that cannot supply `m_FileSize` bytes from
`m_DataOffset` makes `writeData` return `ERROR_INVALIDDATA`. -/
theorem writeData_short_throwing_source (disk : List Byte → Option (List Byte))
    (mem : Nat → Byte) (e : File) (sourceArchive targetArchive : FStream)
    (hpath : e.m_SourceFile = [])
    (hgood : sourceArchive.fail = false)
    (hexc : sourceArchive.exc = true)
    (hshort : (sourceArchive.data.drop e.m_DataOffset).length < e.m_FileSize) :
    (e.writeData disk mem sourceArchive targetArchive).result = EErrorCode.ERROR_INVALIDDATA ∧
    (e.writeData disk mem sourceArchive targetArchive).threw = false := by
  have h0 : e.m_SourceFile.length = 0 := by rw [hpath]; rfl
  have hpos : 0 < e.m_FileSize := Nat.lt_of_le_of_lt (Nat.zero_le _) hshort
  obtain ⟨hse, -, hsr⟩ := seekg_props sourceArchive e.m_DataOffset
  have hthrow := copyLoop_throws e.m_FileSize e.m_FileSize (sourceArchive.seekg e.m_DataOffset)
    targetArchive mem (hse.trans hexc) (Or.inr (by rw [hsr hgood]; exact hshort)) hpos
    (Nat.le_refl _)
  simp only [File.writeData, h0, if_true, seekgThrows_of_good sourceArchive hgood,
    Bool.false_eq_true, if_false, hthrow, and_self]

/-- The `seekg` of line 108 on a source archive stream that has already failed
and whose exception mask makes a failure throw: the exception leaves `writeData`,
before any byte is read or written. -/
theorem writeData_failed_throwing_source (disk : List Byte → Option (List Byte))
    (mem : Nat → Byte) (e : File) (sourceArchive targetArchive : FStream)
    (hpath : e.m_SourceFile = [])
    (hfail : sourceArchive.fail = true)
    (hexc : sourceArchive.exc = true) :
    (e.writeData disk mem sourceArchive targetArchive).threw = true ∧
    (e.writeData disk mem sourceArchive targetArchive).targetArchive = targetArchive := by
  have h0 : e.m_SourceFile.length = 0 := by rw [hpath]; rfl
  have hthrows : sourceArchive.seekgThrows = true := by
    simp [FStream.seekgThrows, hfail, hexc]
  simp only [File.writeData, h0, if_true, hthrows, and_self]

/-- C12, the code at the failing input. An entry of 3 bytes at offset 1 without a
loose source file, a source archive of the 3 bytes 10, 11, 12 on a stream with the
default exception mask, a target of two bytes at its end, a buffer that held 7:
the source supplies only two bytes, yet `writeData` returns `ERROR_NONE`, not
`ERROR_INVALIDDATA`, and the target has received 11, 12 and the stale byte 7. The
same call on a stream that throws on a failed read returns `ERROR_INVALIDDATA`
and leaves the target as it was. -/
theorem C12_short_source_default_mask :
    (File.writeData (fun _ => none) (fun _ => 7)
        (File.fromMetadata (fun s => s.length) [97] none 3 1 0 [] [])
        { data := [10, 11, 12], pos := 0, fail := false, exc := false }
        { data := [1, 2], pos := 2, fail := false, exc := false }).result
      = EErrorCode.ERROR_NONE ∧
    (File.writeData (fun _ => none) (fun _ => 7)
        (File.fromMetadata (fun s => s.length) [97] none 3 1 0 [] [])
        { data := [10, 11, 12], pos := 0, fail := false, exc := false }
        { data := [1, 2], pos := 2, fail := false, exc := false }).threw = false ∧
    (File.writeData (fun _ => none) (fun _ => 7)
        (File.fromMetadata (fun s => s.length) [97] none 3 1 0 [] [])
        { data := [10, 11, 12], pos := 0, fail := false, exc := false }
        { data := [1, 2], pos := 2, fail := false, exc := false }).targetArchive.data
      = [1, 2, 11, 12, 7] ∧
    (File.writeData (fun _ => none) (fun _ => 7)
        (File.fromMetadata (fun s => s.length) [97] none 3 1 0 [] [])
        { data := [10, 11, 12], pos := 0, fail := false, exc := true }
        { data := [1, 2], pos := 2, fail := false, exc := false }).result
      = EErrorCode.ERROR_INVALIDDATA ∧
    (File.writeData (fun _ => none) (fun _ => 7)
        (File.fromMetadata (fun s => s.length) [97] none 3 1 0 [] [])
        { data := [10, 11, 12], pos := 0, fail := false, exc := true }
        { data := [1, 2], pos := 2, fail := false, exc := false }).targetArchive.data
      = [1, 2] := by
  refine ⟨?_, ?_, ?_, ?_, ?_⟩ <;> decide

/-- C13. `writeData` does not look at the compression flags: setting
`m_ToggleCompressed` and `m_ToggleCompressedWrite` of an entry to any values
changes nothing in the outcome of the call except those two members of the
entry, which come out as they went in. So the result code, the target, the
write offset and the size are the same for two entries that differ only
there. -/
theorem C13_writeData_ignores_compressed (disk : List Byte → Option (List Byte))
    (mem : Nat → Byte) (e : File) (sourceArchive targetArchive : FStream)
    (compressed compressedWrite : Bool) :
    File.writeData disk mem
        { e with m_ToggleCompressed := compressed, m_ToggleCompressedWrite := compressedWrite }
        sourceArchive targetArchive
      = { e.writeData disk mem sourceArchive targetArchive with
          self := { (e.writeData disk mem sourceArchive targetArchive).self with
            m_ToggleCompressed := compressed
            m_ToggleCompressedWrite := compressedWrite } } ∧
    (File.writeData disk mem
        { e with m_ToggleCompressed := compressed, m_ToggleCompressedWrite := compressedWrite }
        sourceArchive targetArchive).result
      = (e.writeData disk mem sourceArchive targetArchive).result ∧
    (File.writeData disk mem
        { e with m_ToggleCompressed := compressed, m_ToggleCompressedWrite := compressedWrite }
        sourceArchive targetArchive).targetArchive
      = (e.writeData disk mem sourceArchive targetArchive).targetArchive ∧
    (File.writeData disk mem
        { e with m_ToggleCompressed := compressed, m_ToggleCompressedWrite := compressedWrite }
        sourceArchive targetArchive).self.m_DataOffsetWrite
      = (e.writeData disk mem sourceArchive targetArchive).self.m_DataOffsetWrite ∧
    (File.writeData disk mem
        { e with m_ToggleCompressed := compressed, m_ToggleCompressedWrite := compressedWrite }
        sourceArchive targetArchive).self.m_FileSize
      = (e.writeData disk mem sourceArchive targetArchive).self.m_FileSize ∧
    (e.writeData disk mem sourceArchive targetArchive).self.m_ToggleCompressed
      = e.m_ToggleCompressed ∧
    (e.writeData disk mem sourceArchive targetArchive).self.m_ToggleCompressedWrite
      = e.m_ToggleCompressedWrite := by
  have hmain : File.writeData disk mem
        { e with m_ToggleCompressed := compressed, m_ToggleCompressedWrite := compressedWrite }
        sourceArchive targetArchive
      = { e.writeData disk mem sourceArchive targetArchive with
          self := { (e.writeData disk mem sourceArchive targetArchive).self with
            m_ToggleCompressed := compressed
            m_ToggleCompressedWrite := compressedWrite } } := by
    by_cases h0 : e.m_SourceFile.length = 0
    · cases hthrows : sourceArchive.seekgThrows
      · simp only [File.writeData, h0, if_true, hthrows, Bool.false_eq_true, if_false]
      · simp only [File.writeData, h0, if_true, hthrows]
    · cases hdisk : disk e.m_SourceFile with
      | none => simp only [File.writeData, h0, if_false, hdisk]
      | some content => simp only [File.writeData, h0, if_false, hdisk]
  have hflags : (e.writeData disk mem sourceArchive targetArchive).self.m_ToggleCompressed
        = e.m_ToggleCompressed ∧
      (e.writeData disk mem sourceArchive targetArchive).self.m_ToggleCompressedWrite
        = e.m_ToggleCompressedWrite := by
    rcases writeData_self_cases disk mem e sourceArchive targetArchive with
      ⟨-, h, -, -⟩ | ⟨-, -, h, -⟩ | ⟨-, content, -, h, -⟩ <;> rw [h] <;> exact ⟨rfl, rfl⟩
  refine ⟨hmain, ?_, ?_, ?_, ?_, hflags.1, hflags.2⟩ <;> rw [hmain]

/-! ## Claims about paths, construction and ordering -/

/-- C14. For an entry whose owning folder is not null, `getFilePath` returns the
folder's `getFullPath()`, one backslash (byte 92) and the entry's name. It is a
const member that returns a string: it has no state to change. -/
theorem C14_getFilePath (e : File) (folder : Folder)
    (hfolder : e.m_Folder = some folder) :
    e.getFilePath = some (folder.getFullPath ++ [92] ++ e.m_Name) ∧
    (∀ path, e.getFilePath = some path →
      path.length = folder.getFullPath.length + 1 + e.m_Name.length) := by
  have h : e.getFilePath = some (folder.getFullPath ++ [92] ++ e.m_Name) := by
    simp only [File.getFilePath, hfolder]
  refine ⟨h, ?_⟩
  intro path hp
  rw [h] at hp
  cases hp
  simp only [List.length_append, List.length_cons, List.length_nil]

/-- C14, witness: the folder path `Meshes\Armor` (bytes 77 101 115 104 101 115 92
65 114 109 111 114) and the name `helmet.nif` (bytes 104 101 108 109 101 116 46
110 105 102) give `Meshes\Armor\helmet.nif`. -/
theorem C14_getFilePath_witness :
    File.getFilePath
        (File.fromMetadata (fun s => s.length)
          [104, 101, 108, 109, 101, 116, 46, 110, 105, 102]
          (some { getFullPath := [77, 101, 115, 104, 101, 115, 92, 65, 114, 109, 111, 114] })
          0 0 0 [] [])
      = some [77, 101, 115, 104, 101, 115, 92, 65, 114, 109, 111, 114, 92,
          104, 101, 108, 109, 101, 116, 46, 110, 105, 102] :=
  (C14_getFilePath
    (File.fromMetadata (fun s => s.length)
      [104, 101, 108, 109, 101, 116, 46, 110, 105, 102]
      (some { getFullPath := [77, 101, 115, 104, 101, 115, 92, 65, 114, 109, 111, 114] })
      0 0 0 [] [])
    { getFullPath := [77, 101, 115, 104, 101, 115, 92, 65, 114, 109, 111, 114] } rfl).1

/-- C15. The loose-file constructor yields an entry with
`m_NameHash = calculateBSAHash(name)`, `m_New = true`, `m_FileSize = 0`,
`m_SourceFile = sourceFile` and `m_ToggleCompressed = toggleCompressed`. The size
stays 0 through `readFileName` and `writeHeader`, and through a `writeData` that
cannot open the file; a `writeData` that opens a file of `L` bytes sets it to
`L % 2 ^ 32`. -/
theorem C15_fromLooseFile (calculateBSAHash : List Byte → Nat) (name sourceFile : List Byte)
    (folder : Option Folder) (toggleCompressed : Bool) :
    (File.fromLooseFile calculateBSAHash name sourceFile folder toggleCompressed).m_NameHash
      = calculateBSAHash name ∧
    (File.fromLooseFile calculateBSAHash name sourceFile folder toggleCompressed).m_New = true ∧
    (File.fromLooseFile calculateBSAHash name sourceFile folder toggleCompressed).m_FileSize = 0 ∧
    (File.fromLooseFile calculateBSAHash name sourceFile folder toggleCompressed).m_SourceFile
      = sourceFile ∧
    (File.fromLooseFile calculateBSAHash name sourceFile folder toggleCompressed).m_ToggleCompressed
      = toggleCompressed ∧
    (∀ (file : FStream) (testHashes : Bool),
      (File.readFileName calculateBSAHash
        (File.fromLooseFile calculateBSAHash name sourceFile folder toggleCompressed)
        file testHashes).1.m_FileSize = 0) ∧
    (∀ file : FStream,
      (File.writeHeader
        (File.fromLooseFile calculateBSAHash name sourceFile folder toggleCompressed)
        file).1.m_FileSize = 0) ∧
    (∀ (disk : List Byte → Option (List Byte)) (mem : Nat → Byte)
        (sourceArchive targetArchive : FStream),
      disk sourceFile = none →
      (File.writeData disk mem
        (File.fromLooseFile calculateBSAHash name sourceFile folder toggleCompressed)
        sourceArchive targetArchive).self.m_FileSize = 0) ∧
    (∀ (disk : List Byte → Option (List Byte)) (mem : Nat → Byte)
        (sourceArchive targetArchive : FStream) (content : List Byte),
      sourceFile ≠ [] → disk sourceFile = some content →
      (File.writeData disk mem
        (File.fromLooseFile calculateBSAHash name sourceFile folder toggleCompressed)
        sourceArchive targetArchive).self.m_FileSize = content.length % 2 ^ 32) := by
  refine ⟨rfl, rfl, rfl, rfl, rfl, ?_, ?_, ?_, ?_⟩
  · intro file testHashes
    simp only [File.readFileName]
    split
    · split <;> rfl
    · rfl
  · intro file
    rfl
  · intro disk mem sourceArchive targetArchive hnone
    rcases writeData_self_cases disk mem
        (File.fromLooseFile calculateBSAHash name sourceFile folder toggleCompressed)
        sourceArchive targetArchive with
      ⟨-, h, -, -⟩ | ⟨-, -, h, -⟩ | ⟨-, content, hc, -, -⟩
    · rw [h]; rfl
    · rw [h]; rfl
    · have hs : (File.fromLooseFile calculateBSAHash name sourceFile folder
          toggleCompressed).m_SourceFile = sourceFile := rfl
      rw [hs, hnone] at hc
      cases hc
  · intro disk mem sourceArchive targetArchive content hne hsome
    rw [writeData_loose disk mem _ sourceArchive targetArchive content hne hsome]

/-- C15, witness: an entry for the loose file `b`, which holds three bytes. -/
theorem C15_fromLooseFile_witness :
    (File.fromLooseFile (fun s => s.length) [97] [98] none true).m_FileSize = 0 ∧
    (File.writeData (fun _ => some [7, 8, 9]) (fun _ => 0)
        (File.fromLooseFile (fun s => s.length) [97] [98] none true)
        { data := [], pos := 0, fail := false, exc := false }
        { data := [], pos := 0, fail := false, exc := false }).self.m_FileSize
      = [7, 8, 9].length % 2 ^ 32 :=
  ⟨(C15_fromLooseFile (fun s => s.length) [97] [98] none true).2.2.1,
   (C15_fromLooseFile (fun s => s.length) [97] [98] none true).2.2.2.2.2.2.2.2
     (fun _ => some [7, 8, 9]) (fun _ => 0)
     { data := [], pos := 0, fail := false, exc := false }
     { data := [], pos := 0, fail := false, exc := false } [7, 8, 9] (by decide) rfl⟩

/-- C20. `ByOffset(a, b)` holds exactly when the data offset of `a` is strictly
less than that of `b`, and it is a strict weak ordering: irreflexive,
asymmetric, transitive, and with incomparability, which is equality of the
offsets, transitive. -/
theorem C20_ByOffset_strict_weak_order :
    (∀ a b : File, ByOffset a b = true ↔ a.getDataOffset < b.getDataOffset) ∧
    (∀ a : File, ByOffset a a = false) ∧
    (∀ a b : File, ByOffset a b = true → ByOffset b a = false) ∧
    (∀ a b c : File, ByOffset a b = true → ByOffset b c = true → ByOffset a c = true) ∧
    (∀ a b : File, (ByOffset a b = false ∧ ByOffset b a = false)
      ↔ a.getDataOffset = b.getDataOffset) ∧
    (∀ a b c : File, (ByOffset a b = false ∧ ByOffset b a = false) →
      (ByOffset b c = false ∧ ByOffset c b = false) →
      (ByOffset a c = false ∧ ByOffset c a = false)) := by
  have hiff : ∀ a b : File, ByOffset a b = true ↔ a.getDataOffset < b.getDataOffset := by
    intro a b; simp [ByOffset]
  have hfalse : ∀ a b : File, ByOffset a b = false ↔ ¬ a.getDataOffset < b.getDataOffset := by
    intro a b; simp [ByOffset]
  refine ⟨hiff, ?_, ?_, ?_, ?_, ?_⟩
  · intro a; rw [hfalse]; omega
  · intro a b; rw [hiff, hfalse]; omega
  · intro a b c; rw [hiff, hiff, hiff]; omega
  · intro a b; rw [hfalse, hfalse]; omega
  · intro a b c; rw [hfalse, hfalse, hfalse, hfalse, hfalse, hfalse]; omega

/-- C20, witness: entries at offsets 1, 2 and 3. -/
theorem C20_ByOffset_strict_weak_order_witness :
    ByOffset (File.fromMetadata (fun s => s.length) [97] none 0 1 0 [] [])
      (File.fromMetadata (fun s => s.length) [97] none 0 3 0 [] []) = true :=
  C20_ByOffset_strict_weak_order.2.2.2.1
    (File.fromMetadata (fun s => s.length) [97] none 0 1 0 [] [])
    (File.fromMetadata (fun s => s.length) [97] none 0 2 0 [] [])
    (File.fromMetadata (fun s => s.length) [97] none 0 3 0 [] []) (by decide) (by decide)

/-! ## Claims about the size word of an entry -/

theorem or_bit30_mod (a : Nat) : (a ||| 2 ^ 30) % 2 ^ 30 = a % 2 ^ 30 := by
  apply Nat.eq_of_testBit_eq
  intro i
  simp only [Nat.testBit_mod_two_pow, Nat.testBit_or, Nat.testBit_two_pow]
  by_cases h : i < 30
  · have h5 : ¬ 30 = i := by omega
    simp [h, h5]
  · simp [h]

theorem sizeWord_mod (e : File) : e.sizeWord % 2 ^ 30 = e.m_FileSize % 2 ^ 30 := by
  have hsh : (1 : Nat) <<< 30 = 2 ^ 30 := by decide
  unfold File.sizeWord
  split
  · rw [hsh, or_bit30_mod]
  · rfl

theorem sizeWord_testBit (e : File) :
    e.sizeWord.testBit 30 = (e.m_ToggleCompressed || e.m_FileSize.testBit 30) := by
  have hsh : (1 : Nat) <<< 30 = 2 ^ 30 := by decide
  unfold File.sizeWord
  cases e.m_ToggleCompressed
  · simp only [Bool.false_eq_true, if_false, Bool.false_or]
  · simp only [if_true, hsh, Nat.testBit_or, Nat.testBit_two_pow, decide_True, Bool.or_true,
      Bool.true_or]

theorem sizeWord_lt (e : File) (hsize : e.m_FileSize < 2 ^ 30) : e.sizeWord < 2 ^ 31 := by
  have hsh : (1 : Nat) <<< 30 = 2 ^ 30 := by decide
  have h31 : e.m_FileSize < 2 ^ 31 := Nat.lt_of_lt_of_le hsize (by decide)
  unfold File.sizeWord
  split
  · rw [hsh]; exact Nat.or_lt_two_pow h31 (by decide)
  · exact h31

theorem fromStream_size_lt (file file1 : FStream) (folder : Option Folder) (e : File)
    (h : File.fromStream file folder = Except.ok (e, file1)) : e.m_FileSize < 2 ^ 30 := by
  unfold File.fromStream at h
  split at h
  · cases h
  · split at h
    · cases h
    · split at h
      · cases h
      · cases h
        exact (Nat.and_pow_two_sub_one_eq_mod _ 30).symm ▸ Nat.mod_lt _ (by decide)

/-- C16, amended. For every entry, hence for every entry the three constructors
and any calls of `readFileName` and `writeData` produce, the size word
`writeHeader` serializes has bit 30 set exactly when `m_ToggleCompressed` is set
and has `m_FileSize` as its low 30 bits if and only if `m_FileSize < 2 ^ 30`. An
entry made by the parsing constructor has such a size; `readFileName` changes
neither the size nor the flag. -/
theorem C16_size_word_consistent :
    (∀ e : File,
      (e.sizeWord.testBit 30 = e.m_ToggleCompressed ∧ e.sizeWord % 2 ^ 30 = e.m_FileSize)
        ↔ e.m_FileSize < 2 ^ 30) ∧
    (∀ (file file1 : FStream) (folder : Option Folder) (e : File),
      File.fromStream file folder = Except.ok (e, file1) →
        e.m_FileSize < 2 ^ 30 ∧
        e.sizeWord.testBit 30 = e.m_ToggleCompressed ∧ e.sizeWord % 2 ^ 30 = e.m_FileSize) ∧
    (∀ (calculateBSAHash : List Byte → Nat) (e : File) (file : FStream) (testHashes : Bool),
      (e.readFileName calculateBSAHash file testHashes).1.sizeWord = e.sizeWord ∧
      (e.readFileName calculateBSAHash file testHashes).1.m_FileSize = e.m_FileSize ∧
      (e.readFileName calculateBSAHash file testHashes).1.m_ToggleCompressed
        = e.m_ToggleCompressed) := by
  have hmain : ∀ e : File,
      (e.sizeWord.testBit 30 = e.m_ToggleCompressed ∧ e.sizeWord % 2 ^ 30 = e.m_FileSize)
        ↔ e.m_FileSize < 2 ^ 30 := by
    intro e
    constructor
    · rintro ⟨-, h⟩
      rw [← h]
      exact Nat.mod_lt _ (by decide)
    · intro h
      refine ⟨?_, ?_⟩
      · rw [sizeWord_testBit, Nat.testBit_lt_two_pow h, Bool.or_false]
      · rw [sizeWord_mod, Nat.mod_eq_of_lt h]
  refine ⟨hmain, ?_, ?_⟩
  · intro file file1 folder e h
    have hlt := fromStream_size_lt file file1 folder e h
    exact ⟨hlt, (hmain e).mpr hlt⟩
  · intro calculateBSAHash e file testHashes
    simp only [File.readFileName]
    split
    · split <;> exact ⟨rfl, rfl, rfl⟩
    · exact ⟨rfl, rfl, rfl⟩

/-- C16, witness: a compressed entry of 9 bytes has the size word `2 ^ 30 + 9`. -/
theorem C16_size_word_consistent_witness :
    (File.fromMetadata (fun s => s.length) [97] none 9 0 20 [] []).sizeWord.testBit 30
      = (File.fromMetadata (fun s => s.length) [97] none 9 0 20 [] []).m_ToggleCompressed ∧
    (File.fromMetadata (fun s => s.length) [97] none 9 0 20 [] []).sizeWord % 2 ^ 30
      = (File.fromMetadata (fun s => s.length) [97] none 9 0 20 [] []).m_FileSize :=
  (C16_size_word_consistent.1
    (File.fromMetadata (fun s => s.length) [97] none 9 0 20 [] [])).mpr (by decide)

/-- C16, counterexample: the metadata constructor with size `2 ^ 30` and
uncompressed size 0 yields an entry that is not compressed and whose size word is
`2 ^ 30`: bit 30 is set, and the low 30 bits are 0, not the size. -/
theorem C16_counterexample :
    (File.fromMetadata (fun s => s.length) [97] none (2 ^ 30) 0 0 [] []).m_ToggleCompressed
      = false ∧
    (File.fromMetadata (fun s => s.length) [97] none (2 ^ 30) 0 0 [] []).m_FileSize = 2 ^ 30 ∧
    (File.fromMetadata (fun s => s.length) [97] none (2 ^ 30) 0 0 [] []).sizeWord = 2 ^ 30 ∧
    (File.fromMetadata (fun s => s.length) [97] none (2 ^ 30) 0 0 [] []).sizeWord.testBit 30
      = true ∧
    (File.fromMetadata (fun s => s.length) [97] none (2 ^ 30) 0 0 [] []).sizeWord % 2 ^ 30
      = 0 := by
  refine ⟨?_, ?_, ?_, ?_, ?_⟩ <;> decide

theorem drop_writeAt (d : List Byte) (p : Nat) (bs : List Byte) (hbs : bs ≠ []) :
    (writeAt d p bs).drop p = bs ++ d.drop (p + bs.length) := by
  have hpre : (d.take p ++ List.replicate (p - d.length) (0 : Byte)).length = p := by
    simp only [List.length_append, List.length_take, List.length_replicate]; omega
  unfold writeAt
  rw [if_neg hbs, List.append_assoc]
  exact List.drop_left' hpre

/-- C18. For an entry with `m_FileSize < 2 ^ 30` (and members within their
types: a 64-bit hash, a 32-bit write offset), the constructor
`File(fstream&, Folder*)` applied to the bytes `writeHeader` wrote yields an entry
with the same `m_NameHash`, the same `m_FileSize`, the same `m_ToggleCompressed`,
and `m_DataOffset` equal to the `m_DataOffsetWrite` of the original. -/
theorem C18_writeHeader_then_parse (e : File) (out : FStream) (folder : Option Folder)
    (hsize : e.m_FileSize < 2 ^ 30)
    (hhash : e.m_NameHash < 2 ^ 64)
    (hoff : e.m_DataOffsetWrite < 2 ^ 32)
    (hgood : out.fail = false) :
    ∃ e1 file1,
      File.fromStream ((e.writeHeader out).2.seekg out.pos) folder = Except.ok (e1, file1) ∧
      e1.m_NameHash = e.m_NameHash ∧
      e1.m_FileSize = e.m_FileSize ∧
      e1.m_ToggleCompressed = e.m_ToggleCompressed ∧
      e1.m_DataOffset = e.m_DataOffsetWrite := by
  obtain ⟨hl, hf1, hf2, hf3⟩ := recordBytes_fields e.m_NameHash e.sizeWord e.m_DataOffsetWrite
  have hne : recordBytes e.m_NameHash e.sizeWord e.m_DataOffsetWrite ≠ [] := by
    intro h; rw [h] at hl; cases hl
  have hsw31 := sizeWord_lt e hsize
  have hsw32 : e.sizeWord < 2 ^ 32 := Nat.lt_of_lt_of_le hsw31 (by decide)
  have hstream : (e.writeHeader out).2.seekg out.pos
      = { out with
          data := writeAt out.data out.pos (recordBytes e.m_NameHash e.sizeWord e.m_DataOffsetWrite) } := by
    rw [writeHeader_eq]
    cases out with
    | mk data pos fail exc =>
      simp only at hgood
      subst hgood
      simp [FStream.write, FStream.seekg]
  have hrem : ((e.writeHeader out).2.seekg out.pos).remaining
      = recordBytes e.m_NameHash e.sizeWord e.m_DataOffsetWrite
        ++ out.data.drop (out.pos + 16) := by
    rw [hstream]
    simp only [FStream.remaining]
    rw [drop_writeAt _ _ _ hne, hl]
  have hgood1 : ((e.writeHeader out).2.seekg out.pos).fail = false := by
    rw [hstream]; exact hgood
  have hlen : 16 ≤ ((e.writeHeader out).2.seekg out.pos).remaining.length := by
    rw [hrem, List.length_append, hl]; omega
  refine ⟨_, _, fromStream_ok _ folder hgood1 hlen, ?_⟩
  rw [hrem, recordEntry_append _ _ _ hl]
  simp only [recordEntry, hf1, hf2, hf3, fromLE_toLE]
  have e1 : e.m_NameHash % 2 ^ (8 * 8) = e.m_NameHash := Nat.mod_eq_of_lt hhash
  have e2 : e.sizeWord % 2 ^ (8 * 4) = e.sizeWord := Nat.mod_eq_of_lt hsw32
  have e3 : e.m_DataOffsetWrite % 2 ^ (8 * 4) = e.m_DataOffsetWrite := Nat.mod_eq_of_lt hoff
  rw [e1, e2, e3]
  refine ⟨rfl, ?_, ?_, rfl⟩
  · have h1 : e.sizeWord &&& SIZEMASK = e.sizeWord % 2 ^ 30 :=
      Nat.and_pow_two_sub_one_eq_mod _ 30
    rw [h1, sizeWord_mod, Nat.mod_eq_of_lt hsize]
  · have h2 : e.sizeWord &&& COMPRESSMASK = (e.sizeWord.testBit 30).toNat * 2 ^ 30 :=
      Nat.and_two_pow _ 30
    rw [h2, sizeWord_testBit, Nat.testBit_lt_two_pow hsize, Bool.or_false]
    cases e.m_ToggleCompressed <;> simp

/-- C18, witness: a compressed entry of 9 bytes written at offset 77, its header
written to an empty stream and parsed back. -/
theorem C18_writeHeader_then_parse_witness :
    ∃ e1 file1,
      File.fromStream
          (FStream.seekg
            (File.writeHeader
              { File.fromMetadata (fun s => s.length) [97] none 9 0 20 [] [] with
                m_DataOffsetWrite := 77 }
              { data := [], pos := 0, fail := false, exc := false }).2 0)
          none = Except.ok (e1, file1) ∧
      e1.m_NameHash = 1 ∧ e1.m_FileSize = 9 ∧ e1.m_ToggleCompressed = true ∧
      e1.m_DataOffset = 77 :=
  C18_writeHeader_then_parse
    { File.fromMetadata (fun s => s.length) [97] none 9 0 20 [] [] with
      m_DataOffsetWrite := 77 }
    { data := [], pos := 0, fail := false, exc := false } none
    (by decide) (by decide) (by decide) rfl

/-! ## Claims about the iterations of the copy loop -/

theorem chunkSizes_zero (fuel : Nat) : chunkSizes fuel 0 = [] := by
  cases fuel <;> simp [chunkSizes]

theorem chunkSizes_closed (fuel : Nat) :
    ∀ n : Nat, n ≤ fuel →
      chunkSizes fuel n
        = List.replicate (n / 131072) 131072 ++ (if n % 131072 = 0 then [] else [n % 131072]) := by
  have hC : CHUNK_SIZE = 131072 := rfl
  induction fuel with
  | zero =>
    intro n hn
    have h0 : n = 0 := Nat.le_zero.mp hn
    subst h0
    simp [chunkSizes]
  | succ fuel ih =>
    intro n hn
    by_cases h0 : n = 0
    · subst h0
      simp [chunkSizes]
    · have hpos : n > 0 := Nat.pos_of_ne_zero h0
      rw [chunkSizes, if_pos hpos, hC]
      by_cases hlt : n < 131072
      · have hmin : min n 131072 = n := Nat.min_eq_left (Nat.le_of_lt hlt)
        have hdiv : n / 131072 = 0 := Nat.div_eq_of_lt hlt
        have hmod : n % 131072 = n := Nat.mod_eq_of_lt hlt
        rw [hmin, Nat.sub_self, chunkSizes_zero, hdiv, hmod, if_neg h0]
        rfl
      · have hge : 131072 ≤ n := Nat.le_of_not_lt hlt
        have hmin : min n 131072 = 131072 := Nat.min_eq_right hge
        have hdiv : n / 131072 = (n - 131072) / 131072 + 1 := by omega
        have hmod : (n - 131072) % 131072 = n % 131072 := by omega
        rw [hmin, ih (n - 131072) (by omega), hdiv, hmod, List.replicate_succ, List.cons_append]

theorem foldl_copyStep_latched (cs : List Nat) (x : FStream × FStream × (Nat → Byte)) :
    List.foldl copyStep (true, x) cs = (true, x) := by
  induction cs with
  | nil => rfl
  | cons c cs ih =>
    rw [List.foldl_cons]
    have : copyStep (true, x) c = (true, x) := by simp [copyStep]
    rw [this, ih]

theorem copyLoop_eq_foldl (fuel : Nat) :
    ∀ (sizeLeft : Nat) (source target : FStream) (inBuffer : Nat → Byte),
      copyLoop fuel sizeLeft source target inBuffer
        = ((List.foldl copyStep (false, source, target, inBuffer) (chunkSizes fuel sizeLeft)).1,
           (List.foldl copyStep (false, source, target, inBuffer) (chunkSizes fuel sizeLeft)).2.1,
           (List.foldl copyStep (false, source, target, inBuffer)
             (chunkSizes fuel sizeLeft)).2.2.1) := by
  induction fuel with
  | zero => intro sizeLeft source target inBuffer; rfl
  | succ fuel ih =>
    intro sizeLeft source target inBuffer
    rw [copyLoop, chunkSizes]
    by_cases hpos : sizeLeft > 0
    · simp only [hpos, if_true, List.foldl_cons]
      cases hr : (source.read inBuffer (min sizeLeft CHUNK_SIZE)).1
      · have hstep : copyStep (false, source, target, inBuffer) (min sizeLeft CHUNK_SIZE)
            = (false, (source.read inBuffer (min sizeLeft CHUNK_SIZE)).2.1,
                target.write (bufBytes (source.read inBuffer (min sizeLeft CHUNK_SIZE)).2.2
                  (min sizeLeft CHUNK_SIZE)),
                (source.read inBuffer (min sizeLeft CHUNK_SIZE)).2.2) := by
          simp [copyStep, hr]
        rw [hstep]
        simp only [Bool.false_eq_true, if_false]
        exact ih _ _ _ _
      · have hstep : copyStep (false, source, target, inBuffer) (min sizeLeft CHUNK_SIZE)
            = (true, (source.read inBuffer (min sizeLeft CHUNK_SIZE)).2.1, target,
                (source.read inBuffer (min sizeLeft CHUNK_SIZE)).2.2) := by
          simp [copyStep, hr]
        rw [hstep, foldl_copyStep_latched]
        simp only [if_true]
    · simp only [hpos, if_false, List.foldl_nil]

/-- C17. For every payload size `n` the loop of `writeData`, run to its end,
makes exactly `ceil(n / 131072)` iterations: the chunk lengths are `n / 131072`
times 131072 followed by the remainder if it is not 0. Every chunk has at least
1 and at most `CHUNK_SIZE = 131072` bytes, every chunk but the last has exactly
131072, the lengths sum to `n`, and no initial part of them sums to more than
`n`, so `sizeLeft` never underflows. The loop of the model is these iterations
applied in order. -/
theorem C17_chunk_iterations (n : Nat) :
    chunkSizes n n
      = List.replicate (n / 131072) 131072 ++ (if n % 131072 = 0 then [] else [n % 131072]) ∧
    (chunkSizes n n).length = (n + 131071) / 131072 ∧
    (∀ c ∈ chunkSizes n n, 1 ≤ c ∧ c ≤ CHUNK_SIZE) ∧
    (∀ c ∈ (chunkSizes n n).dropLast, c = 131072) ∧
    (chunkSizes n n).sum = n ∧
    (∀ k : Nat, ((chunkSizes n n).take k).sum ≤ n) ∧
    (∀ (source target : FStream) (inBuffer : Nat → Byte),
      copyLoop n n source target inBuffer
        = ((List.foldl copyStep (false, source, target, inBuffer) (chunkSizes n n)).1,
           (List.foldl copyStep (false, source, target, inBuffer) (chunkSizes n n)).2.1,
           (List.foldl copyStep (false, source, target, inBuffer) (chunkSizes n n)).2.2.1)) := by
  have hC : CHUNK_SIZE = 131072 := rfl
  have hclosed := chunkSizes_closed n n (Nat.le_refl n)
  have hsum : (chunkSizes n n).sum = n := by
    rw [hclosed, List.sum_append, List.sum_replicate]
    by_cases hr : n % 131072 = 0
    · simp only [hr, if_true, List.sum_nil, smul_eq_mul]
      omega
    · simp only [hr, if_false, List.sum_cons, List.sum_nil, smul_eq_mul]
      omega
  refine ⟨hclosed, ?_, ?_, ?_, hsum, ?_, fun source target inBuffer =>
    copyLoop_eq_foldl n n source target inBuffer⟩
  · rw [hclosed, List.length_append, List.length_replicate]
    by_cases hr : n % 131072 = 0
    · simp only [hr, if_true, List.length_nil]
      omega
    · simp only [hr, if_false, List.length_cons, List.length_nil]
      omega
  · intro c hc
    rw [hclosed, List.mem_append] at hc
    rw [hC]
    rcases hc with hc | hc
    · have := (List.mem_replicate.mp hc).2
      omega
    · by_cases hr : n % 131072 = 0
      · simp [hr] at hc
      · simp only [hr, if_false, List.mem_singleton] at hc
        omega
  · intro c hc
    rw [hclosed] at hc
    by_cases hr : n % 131072 = 0
    · simp only [hr, if_true, List.append_nil] at hc
      exact (List.mem_replicate.mp (List.mem_of_mem_dropLast hc)).2
    · simp only [hr, if_false, List.dropLast_concat] at hc
      exact (List.mem_replicate.mp hc).2
  · intro k
    have h := List.sum_take_add_sum_drop (chunkSizes n n) k
    rw [hsum] at h
    omega

/-- C17, witness: the sizes 0, 1, 131071, 131072, 131073 and 1310720 take 0, 1, 1,
1, 2 and 10 iterations. -/
theorem C17_chunk_iterations_witness :
    (chunkSizes 0 0).length = 0 ∧
    (chunkSizes 1 1).length = 1 ∧
    (chunkSizes 131071 131071).length = 1 ∧
    (chunkSizes 131072 131072).length = 1 ∧
    (chunkSizes 131073 131073).length = 2 ∧
    (chunkSizes 1310720 1310720).length = 10 :=
  ⟨(C17_chunk_iterations 0).2.1, (C17_chunk_iterations 1).2.1,
   (C17_chunk_iterations 131071).2.1, (C17_chunk_iterations 131072).2.1,
   (C17_chunk_iterations 131073).2.1, (C17_chunk_iterations 1310720).2.1⟩

/-! ## Claims about the members `writeData` changes -/

/-- C19. Of the entry `writeData` changes at most `m_DataOffsetWrite` and
`m_FileSize`. `m_DataOffsetWrite` is overwritten on every path with the target
position at the call (as `tellp()` gives it, converted to `BSAULong`).
`m_FileSize` changes only when the entry has a loose source file and it was
opened, and then holds the length of the file. When the entry has no loose
source file, or the result is `ERROR_SOURCEFILEMISSING`, every member but
`m_DataOffsetWrite` is as before. -/
theorem C19_writeData_frame (disk : List Byte → Option (List Byte)) (mem : Nat → Byte)
    (e : File) (sourceArchive targetArchive : FStream) :
    (e.writeData disk mem sourceArchive targetArchive).self
      = { e with
          m_DataOffsetWrite :=
            (e.writeData disk mem sourceArchive targetArchive).self.m_DataOffsetWrite
          m_FileSize := (e.writeData disk mem sourceArchive targetArchive).self.m_FileSize } ∧
    (e.writeData disk mem sourceArchive targetArchive).self.m_DataOffsetWrite
      = castBSAULong targetArchive.tell ∧
    (targetArchive.fail = false →
      (e.writeData disk mem sourceArchive targetArchive).self.m_DataOffsetWrite
        = targetArchive.pos % 2 ^ 32) ∧
    ((e.writeData disk mem sourceArchive targetArchive).self.m_FileSize ≠ e.m_FileSize →
      e.m_SourceFile ≠ [] ∧ ∃ content, disk e.m_SourceFile = some content ∧
        (e.writeData disk mem sourceArchive targetArchive).self.m_FileSize
          = content.length % 2 ^ 32) ∧
    (e.m_SourceFile = [] ∨
        (e.writeData disk mem sourceArchive targetArchive).result
          = EErrorCode.ERROR_SOURCEFILEMISSING →
      (e.writeData disk mem sourceArchive targetArchive).self
        = { e with m_DataOffsetWrite := castBSAULong targetArchive.tell } ∧
      (e.writeData disk mem sourceArchive targetArchive).self.m_NameHash = e.m_NameHash ∧
      (e.writeData disk mem sourceArchive targetArchive).self.m_Name = e.m_Name ∧
      (e.writeData disk mem sourceArchive targetArchive).self.m_FileSize = e.m_FileSize ∧
      (e.writeData disk mem sourceArchive targetArchive).self.m_ToggleCompressed
        = e.m_ToggleCompressed ∧
      (e.writeData disk mem sourceArchive targetArchive).self.m_DataOffset = e.m_DataOffset ∧
      (e.writeData disk mem sourceArchive targetArchive).self.m_SourceFile = e.m_SourceFile ∧
      (e.writeData disk mem sourceArchive targetArchive).self.m_New = e.m_New) := by
  have hoff := writeData_self_writeOffset disk mem e sourceArchive targetArchive
  have hsame : (e.writeData disk mem sourceArchive targetArchive).self
        = { e with m_DataOffsetWrite := castBSAULong targetArchive.tell } →
      (e.writeData disk mem sourceArchive targetArchive).self
        = { e with m_DataOffsetWrite := castBSAULong targetArchive.tell } ∧
      (e.writeData disk mem sourceArchive targetArchive).self.m_NameHash = e.m_NameHash ∧
      (e.writeData disk mem sourceArchive targetArchive).self.m_Name = e.m_Name ∧
      (e.writeData disk mem sourceArchive targetArchive).self.m_FileSize = e.m_FileSize ∧
      (e.writeData disk mem sourceArchive targetArchive).self.m_ToggleCompressed
        = e.m_ToggleCompressed ∧
      (e.writeData disk mem sourceArchive targetArchive).self.m_DataOffset = e.m_DataOffset ∧
      (e.writeData disk mem sourceArchive targetArchive).self.m_SourceFile = e.m_SourceFile ∧
      (e.writeData disk mem sourceArchive targetArchive).self.m_New = e.m_New := by
    intro h
    rw [h]
    exact ⟨rfl, rfl, rfl, rfl, rfl, rfl, rfl, rfl⟩
  refine ⟨?_, hoff, ?_, ?_, ?_⟩
  · rcases writeData_self_cases disk mem e sourceArchive targetArchive with
      ⟨-, h, -, -⟩ | ⟨-, -, h, -⟩ | ⟨-, content, -, h, -⟩ <;> rw [h]
  · intro hgood
    rw [hoff, castBSAULong_tell targetArchive hgood]
  · intro hne
    rcases writeData_self_cases disk mem e sourceArchive targetArchive with
      ⟨-, h, -, -⟩ | ⟨-, -, h, -⟩ | ⟨hp, content, hc, h, -⟩
    · rw [h] at hne; exact absurd rfl hne
    · rw [h] at hne; exact absurd rfl hne
    · exact ⟨hp, content, hc, by rw [h]⟩
  · intro hcase
    rcases writeData_self_cases disk mem e sourceArchive targetArchive with
      ⟨-, h, -, -⟩ | ⟨-, -, h, -⟩ | ⟨hp, content, -, -, hres⟩
    · exact hsame h
    · exact hsame h
    · rcases hcase with hcase | hcase
      · exact absurd hcase hp
      · rw [hres] at hcase; cases hcase

/-- C19, witness: the loose file cannot be opened; the result is
`ERROR_SOURCEFILEMISSING` and the entry differs from the one before the call in
its write offset only, which is now 2. -/
theorem C19_writeData_frame_witness :
    (File.writeData (fun _ => none) (fun _ => 0)
        (File.fromLooseFile (fun s => s.length) [97] [98] none false)
        { data := [], pos := 0, fail := false, exc := false }
        { data := [1, 2], pos := 2, fail := false, exc := false }).self
      = { File.fromLooseFile (fun s => s.length) [97] [98] none false with
          m_DataOffsetWrite := castBSAULong
            (FStream.tell { data := [1, 2], pos := 2, fail := false, exc := false }) } ∧
    (File.writeData (fun _ => none) (fun _ => 0)
        (File.fromLooseFile (fun s => s.length) [97] [98] none false)
        { data := [], pos := 0, fail := false, exc := false }
        { data := [1, 2], pos := 2, fail := false, exc := false }).self.m_DataOffsetWrite
      = 2 % 2 ^ 32 :=
  ⟨((C19_writeData_frame (fun _ => none) (fun _ => 0)
      (File.fromLooseFile (fun s => s.length) [97] [98] none false)
      { data := [], pos := 0, fail := false, exc := false }
      { data := [1, 2], pos := 2, fail := false, exc := false }).2.2.2.2 (Or.inr rfl)).1,
   (C19_writeData_frame (fun _ => none) (fun _ => 0)
      (File.fromLooseFile (fun s => s.length) [97] [98] none false)
      { data := [], pos := 0, fail := false, exc := false }
      { data := [1, 2], pos := 2, fail := false, exc := false }).2.2.1 rfl⟩

end BSA
